import Mathlib

/-!
# Holy Diver: the world simulation core of `holy_diver_final.cpp`

(The namespace `Copy` further down embeds the two functions of the earlier
variant `holy_diver_copy.cpp` that its render snapshot depends on.)

A shallow embedding of the classes `Player`, `Enemy` (with its two variants) and
`World`.  Conventions:

* a C++ `int` is a mathematical integer (`Int`); signed overflow is undefined
  behaviour in C++ and lies outside the model, so where an amount is a free
  parameter the statement carries the bounds (`INT_MAX`, `FitsInt`) under which
  no operation of the source overflows;
* a mutating member function becomes a function returning the new object,
  paired with the C++ return value when there is one;
* the arrays `map[MAP_HEIGHT][MAP_WIDTH]` and `illuminated[MAP_HEIGHT][MAP_WIDTH]`
  are functions of the row `y` and the column `x`, in the index order of the
  source (`map y x` is `map[y][x]`); only the cells `0 ≤ x, y < 20` belong to
  the arrays;
* `World::player` is the pointed-to object (the pointer is non-null once a map
  is loaded);
* `rand()` is an explicit stream of draws that is threaded through the code.
-/

set_option linter.unusedVariables false

namespace HolyDiver

/-! ## Constants -/

def MAP_WIDTH : Int := 20
def MAP_HEIGHT : Int := 20
def MAX_HEALTH : Int := 100
def MAX_OXYGEN : Int := 100
def MAX_BATTERY : Int := 100
def BATTERY_COST : Int := 5

def COIN : Char := '*'
def BATTERY_PACK : Char := 'B'
def OXYGEN_TANK : Char := 'O'

/-! ## Player -/

structure Player where
  x : Int
  y : Int
  health : Int
  oxygen : Int
  battery : Int
  lives : Int
  deriving DecidableEq, Repr

namespace Player

/-- Constructor `Player(startX, startY)`. -/
def new (startX startY : Int) : Player :=
  { x := startX, y := startY, health := MAX_HEALTH, oxygen := MAX_OXYGEN,
    battery := MAX_BATTERY, lives := 3 }

def setPosition (p : Player) (newX newY : Int) : Player :=
  { p with x := newX, y := newY }

/-- Source body: `health -= amount; if (health < 0) health = 0;` -/
def takeDamage (p : Player) (amount : Int) : Player :=
  let health := p.health - amount
  { p with health := if health < 0 then 0 else health }

/-- Source body: `oxygen -= amount; if (oxygen < 0) oxygen = 0;` -/
def consumeOxygen (p : Player) (amount : Int) : Player :=
  let oxygen := p.oxygen - amount
  { p with oxygen := if oxygen < 0 then 0 else oxygen }

/-- Source body: `oxygen += amount; if (oxygen > MAX_OXYGEN) oxygen = MAX_OXYGEN;`
The sum is the mathematical one; it is the value the source computes as long as
`oxygen + amount` does not exceed the largest `int`. -/
def addOxygen (p : Player) (amount : Int) : Player :=
  let oxygen := p.oxygen + amount
  { p with oxygen := if oxygen > MAX_OXYGEN then MAX_OXYGEN else oxygen }

/-- Member `useBattery()`: the returned flag and the player afterwards. -/
def useBattery (p : Player) : Bool × Player :=
  if p.battery ≥ BATTERY_COST then
    (true, { p with battery := p.battery - BATTERY_COST })
  else
    (false, p)

/-- Source body: `battery += amount; if (battery > MAX_BATTERY) battery = MAX_BATTERY;`
The sum is the mathematical one; it is the value the source computes as long as
`battery + amount` does not exceed the largest `int`. -/
def rechargeBattery (p : Player) (amount : Int) : Player :=
  let battery := p.battery + amount
  { p with battery := if battery > MAX_BATTERY then MAX_BATTERY else battery }

/-- Source body: `return health <= 0 || oxygen <= 0;` -/
def isDead (p : Player) : Bool :=
  decide (p.health ≤ 0) || decide (p.oxygen ≤ 0)

/-- All three resources lie in `[0, 100]`. -/
def InRange (p : Player) : Prop :=
  (0 ≤ p.health ∧ p.health ≤ MAX_HEALTH) ∧
  (0 ≤ p.oxygen ∧ p.oxygen ≤ MAX_OXYGEN) ∧
  (0 ≤ p.battery ∧ p.battery ≤ MAX_BATTERY)

instance (p : Player) : Decidable p.InRange := by
  unfold InRange; infer_instance

end Player

/-! ## Enemies -/

/-- The two subclasses of `Enemy`. -/
inductive EnemyKind where
  | Stationary
  | Moving
  deriving DecidableEq, Repr

structure Enemy where
  kind : EnemyKind
  x : Int
  y : Int
  damage : Int
  active : Bool
  visible : Bool
  deriving DecidableEq, Repr

namespace Enemy

def activate (e : Enemy) : Enemy := { e with active := true }

def makeVisible (e : Enemy) : Enemy := { e with visible := true }

def giveDamage (e : Enemy) : Int := e.damage

end Enemy

/-- Constructor `StationaryEnemy(startX, startY)`. -/
def StationaryEnemy.new (startX startY : Int) : Enemy :=
  { kind := EnemyKind.Stationary, x := startX, y := startY, damage := 20,
    active := false, visible := false }

/-- Constructor `MovingEnemy(startX, startY)`. -/
def MovingEnemy.new (startX startY : Int) : Enemy :=
  { kind := EnemyKind.Moving, x := startX, y := startY, damage := 15,
    active := false, visible := false }

/-! ## Random source -/

/-- The sequence of values the successive calls of `rand()` return. -/
abbrev Rand := Nat → Nat

/-- One call of `rand()`: the value drawn and the rest of the sequence. -/
def Rand.next (r : Rand) : Nat × Rand := (r 0, fun n => r (n + 1))

/-! ## World -/

structure Collectible where
  x : Int
  y : Int
  type : Char
  collected : Bool
  deriving DecidableEq, Repr

structure World where
  map : Int → Int → Char
  illuminated : Int → Int → Bool
  player : Player
  enemies : List Enemy
  score : Int
  collectibles : List Collectible

/-- The array `a` after the assignment `a[y][x] = v`. -/
def setCell {α : Type} (a : Int → Int → α) (y x : Int) (v : α) : Int → Int → α :=
  fun yy xx => if yy = y ∧ xx = x then v else a yy xx

namespace World

def canMoveTo (w : World) (x y : Int) : Bool :=
  if x < 0 ∨ x ≥ MAP_WIDTH ∨ y < 0 ∨ y ≥ MAP_HEIGHT then false
  else w.map y x != 'x'

/-- The body of the collectible loop of `requestMove` for one collectible:
the player, the score and the collectible afterwards. -/
def collectBody (toX toY : Int) (p : Player) (score : Int) (col : Collectible) :
    Player × Int × Collectible :=
  if !col.collected && col.x == toX && col.y == toY then
    let col1 := { col with collected := true }
    if col.type == COIN then (p, score + 50, col1)
    else if col.type == BATTERY_PACK then (p.rechargeBattery 30, score + 20, col1)
    else if col.type == OXYGEN_TANK then (p.addOxygen 40, score + 20, col1)
    else (p, score, col1)
  else (p, score, col)

/-- The collectible loop of `requestMove`, run over the remaining collectibles
with the current player and score. -/
def collectLoop (toX toY : Int) :
    Player → Int → List Collectible → Player × Int × List Collectible
  | p, score, [] => (p, score, [])
  | p, score, col :: rest =>
    let b := collectBody toX toY p score col
    let r := collectLoop toX toY b.1 b.2.1 rest
    (r.1, r.2.1, b.2.2 :: r.2.2)

/-- Member `requestMove`: the returned flag and the world afterwards. -/
def requestMove (w : World) (fromX fromY toX toY : Int) (isPlayer : Bool) : Bool × World :=
  if !w.canMoveTo toX toY then
    if isPlayer then
      (false, { w with player := w.player.consumeOxygen 2 })
    else
      (false, w)
  else if isPlayer then
    match w.enemies.find? (fun enemy => enemy.x == toX && enemy.y == toY) with
    | some enemy => (false, { w with player := w.player.takeDamage enemy.giveDamage })
    | none =>
      let p1 := (w.player.setPosition toX toY).consumeOxygen 2
      let r := collectLoop toX toY p1 w.score w.collectibles
      (true, { w with player := r.1, illuminated := setCell w.illuminated toY toX true,
                      score := r.2.1, collectibles := r.2.2 })
  else
    (true, w)

/-- The enemy loop of `illuminateTile`. -/
def illuminateEnemies (x y : Int) (enemies : List Enemy) : List Enemy :=
  enemies.map (fun enemy =>
    if enemy.x == x && enemy.y == y then enemy.makeVisible.activate else enemy)

def illuminateTile (w : World) (x y : Int) : World :=
  if x ≥ 0 ∧ x < MAP_WIDTH ∧ y ≥ 0 ∧ y < MAP_HEIGHT then
    let b := w.player.useBattery
    if b.1 then
      { w with player := b.2, illuminated := setCell w.illuminated y x true,
               enemies := illuminateEnemies x y w.enemies }
    else
      { w with player := b.2 }
  else
    w

end World

/-- Member `StationaryEnemy::move`: nothing happens and nothing is drawn. -/
def StationaryEnemy.move (e : Enemy) (_world : World) (r : Rand) : Enemy × Rand := (e, r)

/-- Member `MovingEnemy::move`: the enemy afterwards and the draws that are left. -/
def MovingEnemy.move (e : Enemy) (world : World) (r : Rand) : Enemy × Rand :=
  if !e.active then (e, r)
  else
    let d1 := r.next
    if d1.1 % 3 == 0 then (e, d1.2)
    else
      let d2 := d1.2.next
      let dir := d2.1 % 4
      let newX := if dir == 2 then e.x - 1 else if dir == 3 then e.x + 1 else e.x
      let newY := if dir == 0 then e.y - 1 else if dir == 1 then e.y + 1 else e.y
      if world.canMoveTo newX newY then ({ e with x := newX, y := newY }, d2.2)
      else (e, d2.2)

/-- The virtual call `enemy->move(world)`. -/
def Enemy.move (e : Enemy) (world : World) (r : Rand) : Enemy × Rand :=
  match e.kind with
  | EnemyKind.Stationary => StationaryEnemy.move e world r
  | EnemyKind.Moving => MovingEnemy.move e world r

namespace World

/-- The body of the loop of `updateEnemies` for one enemy: the enemy, the
player and the draws afterwards.  `w` supplies the map and the visibility grid,
which the loop only reads. -/
def updateBody (w : World) (enemy : Enemy) (p : Player) (r : Rand) : Enemy × Player × Rand :=
  let px := p.x
  let py := p.y
  let ex := enemy.x
  let ey := enemy.y
  let e1 :=
    if decide (|px - ex| ≤ 3) && decide (|py - ey| ≤ 3) && w.illuminated ey ex then
      enemy.makeVisible.activate
    else enemy
  let m := if e1.active then e1.move w r else (e1, r)
  let p2 := if m.1.x == p.x && m.1.y == p.y then p.takeDamage m.1.giveDamage else p
  (m.1, p2, m.2)

/-- The loop of `updateEnemies` over the remaining enemies, with the player as
the earlier iterations left it. -/
def updateLoop (w : World) : List Enemy → Player → Rand → List Enemy × Player × Rand
  | [], p, r => ([], p, r)
  | enemy :: rest, p, r =>
    let b := updateBody w enemy p r
    let t := updateLoop w rest b.2.1 b.2.2
    (b.1 :: t.1, t.2.1, t.2.2)

/-- Member `updateEnemies`: the world afterwards and the draws that are left. -/
def updateEnemies (w : World) (r : Rand) : World × Rand :=
  let t := updateLoop w w.enemies w.player r
  ({ w with player := t.2.1, enemies := t.1 }, t.2.2)

def isGameOver (w : World) : Bool := w.player.isDead

end World

/-! ## Map generation and reset -/

/-- The nested loops `for y < MAP_HEIGHT` / `for x < MAP_WIDTH` that assign
`a[y][x] = f y x` to every cell of the array, in the order of the source. -/
def fillGrid {α : Type} (f : Int → Int → α) (a : Int → Int → α) : Int → Int → α :=
  (List.range MAP_HEIGHT.toNat).foldl
    (fun a1 (y : Nat) =>
      (List.range MAP_WIDTH.toNat).foldl (fun a2 (x : Nat) => setCell a2 y x (f y x)) a1)
    a

namespace World

/-- The obstacle loop of `createDefaultMap` with `n` iterations left. -/
def obstacleLoop : Nat → (Int → Int → Char) → Rand → (Int → Int → Char) × Rand
  | 0, map, r => (map, r)
  | n + 1, map, r =>
    let dx := r.next
    let x : Int := 2 + (dx.1 : Int) % (MAP_WIDTH - 4)
    let dy := dx.2.next
    let y : Int := 2 + (dy.1 : Int) % (MAP_HEIGHT - 4)
    obstacleLoop n (setCell map y x 'x') dy.2

/-- The enemy loop of `createDefaultMap` with `n` iterations left. -/
def enemyLoop (map : Int → Int → Char) : Nat → List Enemy → Rand → List Enemy × Rand
  | 0, enemies, r => (enemies, r)
  | n + 1, enemies, r =>
    let dx := r.next
    let x : Int := 2 + (dx.1 : Int) % (MAP_WIDTH - 4)
    let dy := dx.2.next
    let y : Int := 2 + (dy.1 : Int) % (MAP_HEIGHT - 4)
    if map y x == 'o' && !(x == 5 && y == 5) then
      let dk := dy.2.next
      if dk.1 % 3 == 0 then
        enemyLoop map n (enemies ++ [StationaryEnemy.new x y]) dk.2
      else
        enemyLoop map n (enemies ++ [MovingEnemy.new x y]) dk.2
    else
      enemyLoop map n enemies dy.2

/-- One loop of `spawnCollectibles`, `for (int i = 0; i < lo + rand() % span; i++)`,
from the counter value `i` on.  The condition draws a fresh number each time it
is evaluated.  The first argument bounds the number of evaluations of the
condition that are left; `lo + span` of them is always enough. -/
def spawnLoop (type : Char) (lo span : Nat) (map : Int → Int → Char) :
    Nat → Nat → List Collectible → Rand → List Collectible × Rand
  | 0, _, cols, r => (cols, r)
  | fuel + 1, i, cols, r =>
    let d := r.next
    if i < lo + d.1 % span then
      let dx := d.2.next
      let x : Int := 1 + (dx.1 : Int) % (MAP_WIDTH - 2)
      let dy := dx.2.next
      let y : Int := 1 + (dy.1 : Int) % (MAP_HEIGHT - 2)
      if map y x == 'o' then
        spawnLoop type lo span map fuel (i + 1) (cols ++ [⟨x, y, type, false⟩]) dy.2
      else
        spawnLoop type lo span map fuel (i + 1) cols dy.2
    else
      (cols, d.2)

/-- Member `spawnCollectibles`: the collectibles and the draws afterwards. -/
def spawnCollectibles (map : Int → Int → Char) (cols : List Collectible) (r : Rand) :
    List Collectible × Rand :=
  let c1 := spawnLoop COIN 10 6 map 16 0 cols r
  let c2 := spawnLoop BATTERY_PACK 3 3 map 6 0 c1.1 c1.2
  spawnLoop OXYGEN_TANK 3 3 map 6 0 c2.1 c2.2

/-- Member `createDefaultMap`: the world and the draws afterwards. -/
def createDefaultMap (w : World) (r : Rand) : World × Rand :=
  let map1 := fillGrid
    (fun y x => if y = 0 ∨ y = MAP_HEIGHT - 1 ∨ x = 0 ∨ x = MAP_WIDTH - 1 then 'x' else 'o')
    w.map
  let o := obstacleLoop 25 map1 r
  let e := enemyLoop o.1 15 w.enemies o.2
  let c := spawnCollectibles o.1 w.collectibles e.2
  ({ map := o.1, illuminated := setCell w.illuminated 5 5 true, player := Player.new 5 5,
     enemies := e.1, score := w.score, collectibles := c.1 }, c.2)

/-- Member `loadMap` for a path that cannot be opened: the `else` branch. -/
def loadMap (w : World) (r : Rand) : World × Rand := w.createDefaultMap r

/-- Member `reset` for a path that cannot be opened. -/
def reset (w : World) (r : Rand) : World × Rand :=
  loadMap
    { w with enemies := [], collectibles := [], score := 0,
             illuminated := fillGrid (fun _ _ => false) w.illuminated }
    r

end World

/-! ## One turn of the main loop -/

/-- The `switch (tolower(input))` of `main`, for a path that cannot be opened:
the world and the draws afterwards.  The case `q` only clears the loop flags. -/
def dispatch (world : World) (input : Char) (r : Rand) : World × Rand :=
  let px := world.player.x
  let py := world.player.y
  let key := input.toLower
  if key = 'w' then ((world.requestMove px py px (py - 1) true).2, r)
  else if key = 's' then ((world.requestMove px py px (py + 1) true).2, r)
  else if key = 'a' then ((world.requestMove px py (px - 1) py true).2, r)
  else if key = 'd' then ((world.requestMove px py (px + 1) py true).2, r)
  else if key = 'i' then (world.illuminateTile px (py - 1), r)
  else if key = 'k' then (world.illuminateTile px (py + 1), r)
  else if key = 'j' then (world.illuminateTile (px - 1) py, r)
  else if key = 'l' then (world.illuminateTile (px + 1) py, r)
  else if key = 'r' then world.reset r
  else (world, r)

/-- The body of `if (input != '\0')` of the main loop up to and including the
call of `updateEnemies`; with no key read nothing happens. -/
def turn (world : World) (input : Char) (r : Rand) : World × Rand :=
  if input ≠ '\x00' then
    let d := dispatch world input r
    d.1.updateEnemies d.2
  else
    (world, r)

/-! ## The earlier variant, `holy_diver_copy.cpp`

Only what `getTileContent` and `illuminateTile` need.  The arrays
`map[MAP_HEIGHT][MAP_WIDTH]` and `visibility[MAP_HEIGHT][MAP_WIDTH]` are again
functions of the first and the second index, in the order the source writes
them: `visibility a b` is `visibility[a][b]`. -/

namespace Copy

def PLAYER_CHAR : Char := 'P'
def ENEMY : Char := 'M'
def DARK_TILE : Char := '?'
def INITIAL_HEALTH : Int := 5
def INIT_LIVES : Int := 3

structure Player where
  x : Int
  y : Int
  health : Int
  oxygen : Int
  battery : Int
  lives : Int
  deriving DecidableEq, Repr

/-- Constructor `Player(startX, startY)`. -/
def Player.new (startX startY : Int) : Player :=
  { x := startX, y := startY, health := INITIAL_HEALTH, oxygen := MAX_OXYGEN,
    battery := MAX_BATTERY, lives := INIT_LIVES }

/-- Source body: `battery -= amount; if (battery < 0) battery = 0;` -/
def Player.consumeBattery (p : Player) (amount : Int) : Player :=
  let battery := p.battery - amount
  { p with battery := if battery < 0 then 0 else battery }

structure Enemy where
  x : Int
  y : Int
  isMoving : Bool
  isActive : Bool
  deriving DecidableEq, Repr

structure World where
  map : Int → Int → Char
  visibility : Int → Int → Bool
  player : Player
  enemies : List Enemy

/-- Constructor `World(playerStartX, playerStartY)`: every cell dark, no
enemy; the cells of `map` are not initialised, so they are arbitrary. -/
def World.new (garbage : Int → Int → Char) (playerStartX playerStartY : Int) : World :=
  { map := garbage, visibility := fillGrid (fun _ _ => false) (fun _ _ => false),
    player := Player.new playerStartX playerStartY, enemies := [] }

/-- Member `illuminateTile`: `visibility[y][x] = true; player.consumeBattery(5);`
inside the bounds check. -/
def World.illuminateTile (w : World) (x y : Int) : World :=
  if x ≥ 0 ∧ x < MAP_WIDTH ∧ y ≥ 0 ∧ y < MAP_HEIGHT then
    { w with visibility := setCell w.visibility y x true,
             player := w.player.consumeBattery 5 }
  else
    w

/-- Member `getTileContent`, which indexes `visibility[x][y]` and `map[x][y]`. -/
def World.getTileContent (w : World) (x y : Int) : Char :=
  if !w.visibility x y then DARK_TILE
  else if w.player.x == x && w.player.y == y then PLAYER_CHAR
  else
    match w.enemies.find? (fun e => e.x == x && e.y == y) with
    | some _ => ENEMY
    | none => w.map x y

/-- A new world of the copy on an all-open map, player at (9,9) as `main`
creates it. -/
def darkWorld : World := World.new (fun _ _ => 'o') 9 9

end Copy

/-! ## Sequences of calls -/

/-- One call on a world: a `requestMove`, an `illuminateTile`, or an
`updateEnemies` together with the draws `rand()` returns during it. -/
inductive Op where
  | requestMove (fromX fromY toX toY : Int) (isPlayer : Bool)
  | illuminateTile (x y : Int)
  | updateEnemies (r : Rand)

namespace World

def step (w : World) : Op → World
  | Op.requestMove fromX fromY toX toY isPlayer => (w.requestMove fromX fromY toX toY isPlayer).2
  | Op.illuminateTile x y => w.illuminateTile x y
  | Op.updateEnemies r => (w.updateEnemies r).1

/-- The world after a finite sequence of calls, no reset among them. -/
def run (w : World) (ops : List Op) : World := ops.foldl step w

end World

/-! ## Sample states -/

/-- The terrain `createDefaultMap` lays down before it scatters obstacles:
walls on the border, open cells inside. -/
def borderMap : Int → Int → Char :=
  fun y x =>
    if y = 0 ∨ y = MAP_HEIGHT - 1 ∨ x = 0 ∨ x = MAP_WIDTH - 1 then 'x' else 'o'

/-- A world on `borderMap` with the player at (5,5), only that cell revealed. -/
def sampleWorld (p : Player) (enemies : List Enemy) (cols : List Collectible) : World :=
  { map := borderMap, illuminated := setCell (fun _ _ => false) 5 5 true,
    player := p, enemies := enemies, score := 0, collectibles := cols }

/-- An enemy-free sample world whose player has the given health and oxygen. -/
def diverWorld (health oxygen : Int) (cols : List Collectible) : World :=
  sampleWorld { x := 5, y := 5, health := health, oxygen := oxygen, battery := 100, lives := 3 }
    [] cols

/-- A sample world with a stationary enemy on (6,5) and a moving one on (6,6). -/
def guardedWorld : World :=
  sampleWorld (Player.new 5 5) [StationaryEnemy.new 6 5, MovingEnemy.new 6 6] []

/-- A sample world whose player is dead with health 0, next to a stationary
enemy on (6,5). -/
def deadWorld : World :=
  sampleWorld { x := 5, y := 5, health := 0, oxygen := 100, battery := 100, lives := 3 }
    [StationaryEnemy.new 6 5] []

/-- Sample calls: a player move to the right, an enemy update, an illumination. -/
def sampleOps : List Op :=
  [Op.requestMove 5 5 6 5 true, Op.updateEnemies (fun _ => 1), Op.illuminateTile 6 5]

/-! ## Predicates used in the statements -/

/-- A collectible the loop of `requestMove` picks up at `(toX, toY)`. -/
def Collectible.Pending (toX toY : Int) (c : Collectible) : Prop :=
  c.collected = false ∧ c.x = toX ∧ c.y = toY

/-- The cell `(x, y)` lies in the 20×20 grid. -/
def InBounds (x y : Int) : Prop := 0 ≤ x ∧ x < 20 ∧ 0 ≤ y ∧ y < 20

instance (toX toY : Int) (c : Collectible) : Decidable (c.Pending toX toY) := by
  unfold Collectible.Pending; infer_instance

instance (x y : Int) : Decidable (InBounds x y) := by
  unfold InBounds; infer_instance

/-- What `illuminateTile(x, y)` does to one enemy when it succeeds: an enemy
standing on `(x, y)` ends active and visible, any other enemy is unchanged, and
no enemy changes position, damage or variant. -/
def LitEnemy (x y : Int) (e e2 : Enemy) : Prop :=
  e2.x = e.x ∧ e2.y = e.y ∧ e2.damage = e.damage ∧ e2.kind = e.kind ∧
  ((e.x = x ∧ e.y = y) → e2.active = true ∧ e2.visible = true) ∧
  (¬ (e.x = x ∧ e.y = y) → e2 = e)

/-- The world the success branch of `requestMove` builds: the player placed on
the target and charged 2 oxygen, the target revealed, the collectible loop run. -/
def World.moved (w : World) (toX toY : Int) : World :=
  { w with
    player := (World.collectLoop toX toY ((w.player.setPosition toX toY).consumeOxygen 2)
      w.score w.collectibles).1,
    illuminated := setCell w.illuminated toY toX true,
    score := (World.collectLoop toX toY ((w.player.setPosition toX toY).consumeOxygen 2)
      w.score w.collectibles).2.1,
    collectibles := (World.collectLoop toX toY ((w.player.setPosition toX toY).consumeOxygen 2)
      w.score w.collectibles).2.2 }

/-- How a collectible may differ after calls on the world: same place, same
type, and a collected flag that is still set if it was set. -/
def Collectible.Keeps (c c2 : Collectible) : Prop :=
  c2.x = c.x ∧ c2.y = c.y ∧ c2.type = c.type ∧ (c.collected = true → c2.collected = true)

/-- How an enemy may differ after calls on the world: same variant, same
damage, and an active or visible flag that is still set if it was set. -/
def Enemy.Stays (e e2 : Enemy) : Prop :=
  e2.kind = e.kind ∧ e2.damage = e.damage ∧
  (e.active = true → e2.active = true) ∧ (e.visible = true → e2.visible = true)

/-- The score a collectible is worth: 50 for a Coin, 20 for a BatteryPack or an
OxygenTank; a collectible of no known type is worth nothing. -/
def Collectible.value (c : Collectible) : Int :=
  if c.type = COIN then 50
  else if c.type = BATTERY_PACK then 20
  else if c.type = OXYGEN_TANK then 20
  else 0

/-- The summed worth of the uncollected collectibles lying on `(toX, toY)`. -/
def pendingValue (toX toY : Int) (cols : List Collectible) : Int :=
  ((cols.filter (fun d => decide (d.Pending toX toY))).map Collectible.value).sum



/-- A world as the constructor `World()` leaves it, before a map is loaded: no
enemies, no collectibles, score 0, every cell dark; the cells of `map` are not
initialised, so they are arbitrary.  The player pointer is null at that point;
the player given here is never read, since `createDefaultMap` replaces it. -/
def freshWorld (garbage : Int → Int → Char) : World :=
  { map := garbage, illuminated := fun _ _ => false, player := Player.new 0 0,
    enemies := [], score := 0, collectibles := [] }

/-- The cell `(x, y)` lies in the square `2 ≤ x, y ≤ 17` in which
`createDefaultMap` drops its obstacles. -/
def InObstacleSquare (x y : Int) : Prop := 2 ≤ x ∧ x ≤ 17 ∧ 2 ≤ y ∧ y ≤ 17

instance (x y : Int) : Decidable (InObstacleSquare x y) := by
  unfold InObstacleSquare; infer_instance

/-- The world `createDefaultMap` builds from a fresh one when every draw of
`rand()` is 0: all 25 obstacles fall on (2,2). -/
def builtWorld : World :=
  ((freshWorld (fun _ _ => ' ')).createDefaultMap (fun _ => 0)).1

/-- A sample world with an active, visible moving enemy on (6,5), right of the
player. -/
def stalkedWorld : World :=
  sampleWorld (Player.new 5 5)
    [{ kind := EnemyKind.Moving, x := 6, y := 5, damage := 15, active := true, visible := true }]
    []

/-- Sample draws: 1 first (the enemy does not skip its move), then 2 (left). -/
def stepLeftDraws : Rand := fun n => if n = 0 then 1 else 2

/-- The keys the `switch` of `main` has a case for, in lower case. -/
def knownKeys : List Char := ['w', 's', 'a', 'd', 'i', 'k', 'j', 'l', 'r', 'q']

/-- One turn in which the player requests a move: the target of the move and the
draws `rand()` returns during the enemy update that follows. -/
structure MoveRound where
  toX : Int
  toY : Int
  r : Rand

/-- One turn in which the player illuminates: the target tile and the draws
`rand()` returns during the enemy update that follows. -/
structure LightRound where
  x : Int
  y : Int
  r : Rand

/-- A player `requestMove` from the player's tile, then `updateEnemies`. -/
def moveRound (w : World) (m : MoveRound) : World :=
  ((w.requestMove w.player.x w.player.y m.toX m.toY true).2.updateEnemies m.r).1

def moveRounds (w : World) (ms : List MoveRound) : World := ms.foldl moveRound w

/-- An `illuminateTile`, then `updateEnemies`. -/
def lightRound (w : World) (l : LightRound) : World :=
  ((w.illuminateTile l.x l.y).updateEnemies l.r).1

def lightRounds (w : World) (ls : List LightRound) : World := ls.foldl lightRound w

/-- Every move of the sequence, made in turn from `w`, goes onto an open
in-bounds tile on which no enemy stands and no uncollected OxygenTank lies. -/
def PlainMoves : World → List MoveRound → Prop
  | _, [] => True
  | w, m :: ms =>
    (InBounds m.toX m.toY ∧ w.map m.toY m.toX ≠ 'x' ∧
      (∀ e ∈ w.enemies, ¬ (e.x = m.toX ∧ e.y = m.toY)) ∧
      (∀ c ∈ w.collectibles, c.Pending m.toX m.toY → c.type ≠ OXYGEN_TANK)) ∧
    PlainMoves (moveRound w m) ms

/-- Whether `PlainMoves` holds can be computed, move by move. -/
def plainMovesDec : (w : World) → (ms : List MoveRound) → Decidable (PlainMoves w ms)
  | _, [] => isTrue True.intro
  | w, m :: ms =>
    have : Decidable (PlainMoves (moveRound w m) ms) := plainMovesDec (moveRound w m) ms
    inferInstanceAs (Decidable
      ((InBounds m.toX m.toY ∧ w.map m.toY m.toX ≠ 'x' ∧
        (∀ e ∈ w.enemies, ¬ (e.x = m.toX ∧ e.y = m.toY)) ∧
        (∀ c ∈ w.collectibles, c.Pending m.toX m.toY → c.type ≠ OXYGEN_TANK)) ∧
      PlainMoves (moveRound w m) ms))

instance (w : World) (ms : List MoveRound) : Decidable (PlainMoves w ms) := plainMovesDec w ms

/-- Sample moves on an enemy-free world: right, right, down, down. -/
def fourMoves : List MoveRound :=
  [⟨6, 5, fun _ => 0⟩, ⟨7, 5, fun _ => 0⟩, ⟨7, 6, fun _ => 0⟩, ⟨7, 7, fun _ => 0⟩]

/-- Sample illuminations: the tile right of the start, five times. -/
def fiveLights : List LightRound :=
  [⟨6, 5, fun _ => 0⟩, ⟨6, 5, fun _ => 0⟩, ⟨6, 5, fun _ => 0⟩, ⟨6, 5, fun _ => 0⟩,
    ⟨6, 5, fun _ => 0⟩]

/-- The cardinal neighbour of `(x, y)` a direction selects: 0 up, 1 down,
2 left, 3 right. -/
def neighbour (dir : Nat) (x y : Int) : Int × Int :=
  match dir with
  | 0 => (x, y - 1)
  | 1 => (x, y + 1)
  | 2 => (x - 1, y)
  | _ => (x + 1, y)

/-- The cell `(x, y)` of the map of `w` is in bounds and not a Wall. -/
def World.Walkable (w : World) (x y : Int) : Prop := InBounds x y ∧ w.map y x ≠ 'x'

instance (w : World) (x y : Int) : Decidable (w.Walkable x y) := by
  unfold World.Walkable; infer_instance

/-- The proximity rule for an enemy and a player position: the enemy is within
3 cells of the player on both axes and its tile is illuminated. -/
def World.Seen (w : World) (p : Player) (e : Enemy) : Prop :=
  |p.x - e.x| ≤ 3 ∧ |p.y - e.y| ≤ 3 ∧ w.illuminated e.y e.x = true

instance (w : World) (p : Player) (e : Enemy) : Decidable (w.Seen p e) := by
  unfold World.Seen; infer_instance

/-- What one `updateEnemies` call does to the flags of an enemy: it is active
afterwards exactly when it was active before or the proximity rule held for it
at the start of the call, and likewise for visible. -/
def World.Activated (w : World) (e e2 : Enemy) : Prop :=
  (e2.active = true ↔ (e.active = true ∨ w.Seen w.player e)) ∧
  (e2.visible = true ↔ (e.visible = true ∨ w.Seen w.player e))

/-- Where one `updateEnemies` call may leave an enemy: on its cell, or on a
walkable cell exactly one step away along one axis; and on its cell when it was
inactive and the proximity rule did not hold for it. -/
def World.Stepped (w : World) (e e2 : Enemy) : Prop :=
  ((e2.x = e.x ∧ e2.y = e.y) ∨
    (|e2.x - e.x| + |e2.y - e.y| = 1 ∧ w.Walkable e2.x e2.y)) ∧
  (e.active = false → ¬ w.Seen w.player e → e2.x = e.x ∧ e2.y = e.y)

/-- The summed damage of the enemies standing on `(px, py)`. -/
def hitDamage (px py : Int) (es : List Enemy) : Int :=
  ((es.filter (fun e => e.x == px && e.y == py)).map Enemy.damage).sum

/-- The world `createDefaultMap` builds from a fresh one with the draws `r`. -/
def generated (garbage : Int → Int → Char) (r : Rand) : World :=
  ((freshWorld garbage).createDefaultMap r).1

/-- The cell `(x, y)` lies on the border of the grid. -/
def OnBorder (x y : Int) : Prop := x = 0 ∨ x = 19 ∨ y = 0 ∨ y = 19

instance (x y : Int) : Decidable (OnBorder x y) := by
  unfold OnBorder; infer_instance

/-- The Wall cells `(x, y)` of a map that are in bounds and not on the border. -/
def interiorWalls (m : Int → Int → Char) : Finset (Int × Int) :=
  ((Finset.Icc (1 : Int) 18) ×ˢ (Finset.Icc (1 : Int) 18)).filter (fun c => m c.2 c.1 = 'x')

/-- The moving enemy of `stalkedWorld`. -/
def stalker : Enemy :=
  { kind := EnemyKind.Moving, x := 6, y := 5, damage := 15, active := true, visible := true }

/-- The largest value of a 32-bit `int`. -/
def INT_MAX : Int := 2147483647

/-- The smallest value of a 32-bit `int`. -/
def INT_MIN : Int := -2147483648

/-- The integer `z` is a value of a 32-bit `int`: computing it does not
overflow. -/
def FitsInt (z : Int) : Prop := INT_MIN ≤ z ∧ z ≤ INT_MAX

instance (z : Int) : Decidable (FitsInt z) := by
  unfold FitsInt; infer_instance

/-- The world `swarmedWorld` with the player's health lowered to 30, less than
the two hits add up to. -/
def faintWorld : World :=
  sampleWorld { x := 5, y := 5, health := 30, oxygen := 100, battery := 100, lives := 3 }
    [{ kind := EnemyKind.Moving, x := 6, y := 5, damage := 15, active := true, visible := true },
      StationaryEnemy.new 5 5] []

/-- A sample world in which two enemies reach the player in one update: the
moving enemy of `stalkedWorld` on (6,5), and a stationary enemy standing on the
player's tile (5,5). -/
def swarmedWorld : World :=
  sampleWorld (Player.new 5 5) [stalker, StationaryEnemy.new 5 5] []

/-! # Theorems -/

open World

/-! ## Resource operations of the player -/

theorem Player.takeDamage_health (p : Player) (amount : Int) :
    (p.takeDamage amount).health = max (p.health - amount) 0 := by
  simp only [Player.takeDamage]
  split_ifs <;> omega

theorem Player.consumeOxygen_oxygen (p : Player) (amount : Int) :
    (p.consumeOxygen amount).oxygen = max (p.oxygen - amount) 0 := by
  simp only [Player.consumeOxygen]
  split_ifs <;> omega

theorem Player.addOxygen_oxygen (p : Player) (amount : Int) :
    (p.addOxygen amount).oxygen = min (p.oxygen + amount) 100 := by
  simp only [Player.addOxygen, MAX_OXYGEN]
  split_ifs <;> omega

theorem Player.rechargeBattery_battery (p : Player) (amount : Int) :
    (p.rechargeBattery amount).battery = min (p.battery + amount) 100 := by
  simp only [Player.rechargeBattery, MAX_BATTERY]
  split_ifs <;> omega

/-- C1 as stated fails: a negative amount is subtracted without an upper clamp, so
`takeDamage(-5)` on a player with health 100 leaves health 105, outside `[0, 100]`. -/
theorem takeDamage_negative_amount_exceeds_max :
    (Player.new 5 5).InRange ∧
      ((Player.new 5 5).takeDamage (-5)).health = 105 ∧
      ¬ ((Player.new 5 5).takeDamage (-5)).InRange := by
  decide

/-- C1 (amended): for a player whose health, oxygen and battery lie in `[0, 100]`
and every `int` amount that is not negative, `takeDamage`, `consumeOxygen` and
`useBattery` leave the three resources in `[0, 100]`, their subtractions staying
in the range of `int`; `addOxygen` and `rechargeBattery` do so whenever the sum
`oxygen + amount`, respectively `battery + amount`, does not exceed `INT_MAX`,
that is, whenever the addition of the source does not overflow; and
`consumeOxygen(5)` on oxygen 1 gives oxygen 0. -/
theorem resource_ops_stay_in_range (p : Player) (amount : Int)
    (hp : p.InRange) (ha : 0 ≤ amount) (hint : amount ≤ INT_MAX) :
    ((p.takeDamage amount).InRange ∧ FitsInt (p.health - amount)) ∧
      ((p.consumeOxygen amount).InRange ∧ FitsInt (p.oxygen - amount)) ∧
      (p.oxygen + amount ≤ INT_MAX → (p.addOxygen amount).InRange) ∧
      (p.battery + amount ≤ INT_MAX → (p.rechargeBattery amount).InRange) ∧
      (p.useBattery.2.InRange ∧ FitsInt (p.battery - BATTERY_COST)) ∧
      (∀ q : Player, q.oxygen = 1 → (q.consumeOxygen 5).oxygen = 0) := by
  obtain ⟨⟨h1, h2⟩, ⟨h3, h4⟩, h5, h6⟩ := hp
  simp only [MAX_HEALTH, MAX_OXYGEN, MAX_BATTERY] at h2 h4 h6
  simp only [INT_MAX] at hint
  refine ⟨⟨?_, ?_⟩, ⟨?_, ?_⟩, ?_, ?_, ⟨?_, ?_⟩, ?_⟩
  · simp only [Player.InRange, Player.takeDamage, MAX_HEALTH, MAX_OXYGEN, MAX_BATTERY]
    split_ifs <;> omega
  · simp only [FitsInt, INT_MIN, INT_MAX]
    omega
  · simp only [Player.InRange, Player.consumeOxygen, MAX_HEALTH, MAX_OXYGEN, MAX_BATTERY]
    split_ifs <;> omega
  · simp only [FitsInt, INT_MIN, INT_MAX]
    omega
  · intro _
    simp only [Player.InRange, Player.addOxygen, MAX_HEALTH, MAX_OXYGEN, MAX_BATTERY]
    split_ifs <;> omega
  · intro _
    simp only [Player.InRange, Player.rechargeBattery, MAX_HEALTH, MAX_OXYGEN, MAX_BATTERY]
    split_ifs <;> omega
  · simp only [Player.InRange, Player.useBattery, MAX_HEALTH, MAX_OXYGEN, MAX_BATTERY,
      BATTERY_COST]
    split_ifs <;> simp only [] <;> omega
  · simp only [FitsInt, INT_MIN, INT_MAX, BATTERY_COST]
    omega
  · intro q hq
    simp only [Player.consumeOxygen, hq]
    decide

/-! ## `requestMove`: the three outcomes -/

theorem World.canMoveTo_eq_false (w : World) (x y : Int)
    (h : ¬ InBounds x y ∨ w.map y x = 'x') : w.canMoveTo x y = false := by
  unfold World.canMoveTo
  split_ifs with hb
  · rfl
  · rcases h with h | h
    · exfalso
      apply h
      simp only [MAP_WIDTH, MAP_HEIGHT] at hb
      unfold InBounds
      omega
    · simp [h]

theorem World.canMoveTo_eq_true (w : World) (x y : Int)
    (hb : InBounds x y) (h : w.map y x ≠ 'x') : w.canMoveTo x y = true := by
  unfold World.canMoveTo
  unfold InBounds at hb
  have : ¬ (x < 0 ∨ x ≥ MAP_WIDTH ∨ y < 0 ∨ y ≥ MAP_HEIGHT) := by
    simp only [MAP_WIDTH, MAP_HEIGHT]
    omega
  simp [this, h]

theorem find_enemy_none (es : List Enemy) (toX toY : Int)
    (h : ∀ e ∈ es, ¬ (e.x = toX ∧ e.y = toY)) :
    es.find? (fun enemy => enemy.x == toX && enemy.y == toY) = none := by
  rw [List.find?_eq_none]
  intro e he
  simpa using h e he

theorem find_enemy_first (pre post : List Enemy) (e : Enemy) (toX toY : Int)
    (hpre : ∀ a ∈ pre, ¬ (a.x = toX ∧ a.y = toY)) (he : e.x = toX ∧ e.y = toY) :
    (pre ++ e :: post).find? (fun enemy => enemy.x == toX && enemy.y == toY) = some e := by
  rw [List.find?_append, find_enemy_none pre toX toY hpre]
  simp [List.find?_cons, he.1, he.2]

/-- C4: a player move onto a Wall or out of bounds returns false and changes
nothing but the oxygen, which becomes `max (oxygen - 2) 0`. -/
theorem requestMove_blocked_costs_oxygen (w : World) (fromX fromY toX toY : Int)
    (h : ¬ InBounds toX toY ∨ w.map toY toX = 'x') :
    w.requestMove fromX fromY toX toY true =
      (false, { w with player := { w.player with oxygen := max (w.player.oxygen - 2) 0 } }) := by
  have hc := w.canMoveTo_eq_false toX toY h
  have ho := w.player.consumeOxygen_oxygen 2
  simp only [World.requestMove, hc, Bool.not_false, if_true]
  rw [← ho]
  rfl

/-- C5: a player move onto an open in-bounds tile on which an enemy stands
returns false and changes nothing but the health, which becomes
`max (health - d) 0` for the damage `d` of the first such enemy of the list. -/
theorem requestMove_enemy_bump (w : World) (fromX fromY toX toY : Int)
    (pre post : List Enemy) (e : Enemy)
    (hb : InBounds toX toY) (hopen : w.map toY toX ≠ 'x')
    (hes : w.enemies = pre ++ e :: post)
    (hpre : ∀ a ∈ pre, ¬ (a.x = toX ∧ a.y = toY)) (he : e.x = toX ∧ e.y = toY) :
    w.requestMove fromX fromY toX toY true =
      (false, { w with player := { w.player with health := max (w.player.health - e.damage) 0 } }) := by
  have hc := w.canMoveTo_eq_true toX toY hb hopen
  have hf := find_enemy_first pre post e toX toY hpre he
  have hh := w.player.takeDamage_health e.damage
  simp only [World.requestMove, hc, Bool.not_true, hes, hf, if_true, Enemy.giveDamage]
  rw [← hh]
  simp [Player.takeDamage]

theorem collectBody_frame (toX toY : Int) (p : Player) (score : Int) (col : Collectible) :
    (collectBody toX toY p score col).1.x = p.x ∧
      (collectBody toX toY p score col).1.y = p.y ∧
      (collectBody toX toY p score col).1.health = p.health ∧
      (collectBody toX toY p score col).1.lives = p.lives := by
  unfold World.collectBody
  split_ifs <;> simp [Player.rechargeBattery, Player.addOxygen]

theorem collectLoop_frame (toX toY : Int) (cols : List Collectible) :
    ∀ (p : Player) (score : Int),
      (collectLoop toX toY p score cols).1.x = p.x ∧
      (collectLoop toX toY p score cols).1.y = p.y ∧
      (collectLoop toX toY p score cols).1.health = p.health ∧
      (collectLoop toX toY p score cols).1.lives = p.lives := by
  induction cols with
  | nil => intro p score; simp [World.collectLoop]
  | cons col rest ih =>
    intro p score
    have hb := collectBody_frame toX toY p score col
    have hr := ih (collectBody toX toY p score col).1 (collectBody toX toY p score col).2.1
    simp only [World.collectLoop]
    refine ⟨?_, ?_, ?_, ?_⟩
    · rw [hr.1, hb.1]
    · rw [hr.2.1, hb.2.1]
    · rw [hr.2.2.1, hb.2.2.1]
    · rw [hr.2.2.2, hb.2.2.2]

theorem collectBody_not_pending (toX toY : Int) (p : Player) (score : Int) (col : Collectible)
    (h : ¬ col.Pending toX toY) : collectBody toX toY p score col = (p, score, col) := by
  unfold World.collectBody
  have : (!col.collected && col.x == toX && col.y == toY) = false := by
    unfold Collectible.Pending at h
    cases hc : col.collected <;> simp_all
  simp [this]

theorem collectLoop_none_pending (toX toY : Int) (cols : List Collectible) :
    ∀ (p : Player) (score : Int), (∀ c ∈ cols, ¬ c.Pending toX toY) →
      collectLoop toX toY p score cols = (p, score, cols) := by
  induction cols with
  | nil => intro p score _; simp [World.collectLoop]
  | cons col rest ih =>
    intro p score h
    have hb := collectBody_not_pending toX toY p score col (h col (List.mem_cons_self _ _))
    have hr := ih p score (fun c hc => h c (List.mem_cons_of_mem _ hc))
    simp only [World.collectLoop, hb, hr]

/-- A player move onto an open in-bounds tile without an enemy, unfolded. -/
theorem requestMove_free (w : World) (fromX fromY toX toY : Int)
    (hb : InBounds toX toY) (hopen : w.map toY toX ≠ 'x')
    (hfree : ∀ e ∈ w.enemies, ¬ (e.x = toX ∧ e.y = toY)) :
    w.requestMove fromX fromY toX toY true = (true, w.moved toX toY) := by
  have hc := w.canMoveTo_eq_true toX toY hb hopen
  have hf := find_enemy_none w.enemies toX toY hfree
  simp only [World.requestMove, hc, Bool.not_true, hf, if_true]
  rfl

/-- The four ways a call of `requestMove` can end. -/
theorem requestMove_cases (w : World) (fromX fromY toX toY : Int) (isPlayer : Bool) :
    (∃ b, w.requestMove fromX fromY toX toY isPlayer = (b, w)) ∨
    w.requestMove fromX fromY toX toY isPlayer =
      (false, { w with player := w.player.consumeOxygen 2 }) ∨
    (∃ e ∈ w.enemies, w.requestMove fromX fromY toX toY isPlayer =
      (false, { w with player := w.player.takeDamage e.damage })) ∨
    w.requestMove fromX fromY toX toY isPlayer = (true, w.moved toX toY) := by
  unfold World.requestMove
  cases hc : w.canMoveTo toX toY <;> cases isPlayer
  · exact Or.inl ⟨false, by simp⟩
  · exact Or.inr (Or.inl (by simp))
  · exact Or.inl ⟨true, by simp⟩
  · cases hf : w.enemies.find? (fun enemy => enemy.x == toX && enemy.y == toY) with
    | none => exact Or.inr (Or.inr (Or.inr (by simp [World.moved])))
    | some e =>
      refine Or.inr (Or.inr (Or.inl ⟨e, List.mem_of_find?_eq_some hf, ?_⟩))
      simp [Enemy.giveDamage]

/-- A player move that returns true went through the success branch: the
target passes `canMoveTo` and no enemy stands on it. -/
theorem requestMove_true (w : World) (fromX fromY toX toY : Int)
    (h : (w.requestMove fromX fromY toX toY true).1 = true) :
    w.requestMove fromX fromY toX toY true = (true, w.moved toX toY) := by
  unfold World.requestMove at h ⊢
  cases hc : w.canMoveTo toX toY
  · simp [hc] at h
  · cases hf : w.enemies.find? (fun enemy => enemy.x == toX && enemy.y == toY) with
    | none => simp [World.moved]
    | some e => simp [hc, hf] at h

/-- C6: a player move onto an open in-bounds tile on which no enemy stands
returns true, puts the player on the target, reveals the target and no other
cell, and keeps the health; when no uncollected collectible lies on the target
the oxygen becomes `max (oxygen - 2) 0` and battery and score are unchanged. -/
theorem requestMove_free_tile (w : World) (fromX fromY toX toY : Int)
    (hb : InBounds toX toY) (hopen : w.map toY toX ≠ 'x')
    (hfree : ∀ e ∈ w.enemies, ¬ (e.x = toX ∧ e.y = toY)) :
    (w.requestMove fromX fromY toX toY true).1 = true ∧
      (w.requestMove fromX fromY toX toY true).2.player.x = toX ∧
      (w.requestMove fromX fromY toX toY true).2.player.y = toY ∧
      (w.requestMove fromX fromY toX toY true).2.illuminated toY toX = true ∧
      (w.requestMove fromX fromY toX toY true).2.player.health = w.player.health ∧
      (∀ yy xx : Int, ¬ (yy = toY ∧ xx = toX) →
        (w.requestMove fromX fromY toX toY true).2.illuminated yy xx = w.illuminated yy xx) ∧
      ((∀ c ∈ w.collectibles, ¬ c.Pending toX toY) →
        (w.requestMove fromX fromY toX toY true).2.player.oxygen = max (w.player.oxygen - 2) 0 ∧
        (w.requestMove fromX fromY toX toY true).2.player.battery = w.player.battery ∧
        (w.requestMove fromX fromY toX toY true).2.score = w.score) := by
  rw [requestMove_free w fromX fromY toX toY hb hopen hfree]
  unfold World.moved
  have hfr := collectLoop_frame toX toY w.collectibles
    ((w.player.setPosition toX toY).consumeOxygen 2) w.score
  refine ⟨rfl, ?_, ?_, ?_, ?_, ?_, ?_⟩
  · exact hfr.1
  · exact hfr.2.1
  · simp [setCell]
  · exact hfr.2.2.1
  · intro yy xx hne
    simp [setCell, hne]
  · intro hnone
    have hl := collectLoop_none_pending toX toY w.collectibles
      ((w.player.setPosition toX toY).consumeOxygen 2) w.score hnone
    rw [hl]
    exact ⟨Player.consumeOxygen_oxygen (w.player.setPosition toX toY) 2, rfl, rfl⟩

/-! ## `illuminateTile` -/

/-- C9: `illuminateTile(x, y)` with battery below 5, or with `(x, y)` outside
the grid, leaves the whole world unchanged. -/
theorem illuminateTile_failed_noop (w : World) (x y : Int)
    (h : w.player.battery < 5 ∨ ¬ InBounds x y) : w.illuminateTile x y = w := by
  unfold World.illuminateTile
  by_cases hb : x ≥ 0 ∧ x < MAP_WIDTH ∧ y ≥ 0 ∧ y < MAP_HEIGHT
  · have hlow : w.player.battery < 5 := by
      rcases h with h | h
      · exact h
      · exfalso
        apply h
        simp only [MAP_WIDTH, MAP_HEIGHT] at hb
        unfold InBounds
        omega
    have hu : w.player.useBattery = (false, w.player) := by
      unfold Player.useBattery
      simp only [BATTERY_COST]
      rw [if_neg (by omega)]
    simp only [if_pos hb, hu]
    rfl
  · simp only [if_neg hb]

theorem illuminateEnemies_lit (x y : Int) (es : List Enemy) :
    List.Forall₂ (LitEnemy x y) es (illuminateEnemies x y es) := by
  unfold World.illuminateEnemies
  rw [List.forall₂_map_right_iff]
  apply List.forall₂_same.mpr
  intro e _
  unfold LitEnemy
  by_cases hxy : e.x = x ∧ e.y = y
  · simp [hxy.1, hxy.2, Enemy.makeVisible, Enemy.activate]
  · have : (e.x == x && e.y == y) = false := by
      simpa using hxy
    simp [this, hxy]

/-- C10: `illuminateTile(x, y)` with battery at least 5 on an in-bounds tile
lowers the battery by 5, reveals `(x, y)`, makes every enemy standing on
`(x, y)` active and visible, and changes nothing else. -/
theorem illuminateTile_success (w : World) (x y : Int)
    (h5 : 5 ≤ w.player.battery) (hb : InBounds x y) :
    (∃ es : List Enemy,
      w.illuminateTile x y =
        { w with player := { w.player with battery := w.player.battery - 5 },
                 illuminated := setCell w.illuminated y x true,
                 enemies := es } ∧
      List.Forall₂ (LitEnemy x y) w.enemies es) ∧
    (w.illuminateTile x y).illuminated y x = true ∧
    (∀ yy xx : Int, ¬ (yy = y ∧ xx = x) →
      (w.illuminateTile x y).illuminated yy xx = w.illuminated yy xx) := by
  have hw : w.illuminateTile x y =
      { w with player := { w.player with battery := w.player.battery - 5 },
               illuminated := setCell w.illuminated y x true,
               enemies := illuminateEnemies x y w.enemies } := by
    unfold World.illuminateTile
    have hin : x ≥ 0 ∧ x < MAP_WIDTH ∧ y ≥ 0 ∧ y < MAP_HEIGHT := by
      unfold InBounds at hb
      simp only [MAP_WIDTH, MAP_HEIGHT]
      omega
    have hu : w.player.useBattery =
        (true, { w.player with battery := w.player.battery - 5 }) := by
      simp [Player.useBattery, BATTERY_COST, h5]
    simp only [hin, hu]
    simp
  refine ⟨⟨illuminateEnemies x y w.enemies, hw, illuminateEnemies_lit x y w.enemies⟩, ?_, ?_⟩
  · rw [hw]
    simp [setCell]
  · intro yy xx hne
    rw [hw]
    simp [setCell, hne]

/-! ## What the collectible loop does -/

theorem keeps_refl (c : Collectible) : c.Keeps c :=
  ⟨rfl, rfl, rfl, id⟩

theorem keeps_trans {a b c : Collectible} (h1 : a.Keeps b) (h2 : b.Keeps c) :
    a.Keeps c :=
  ⟨h2.1.trans h1.1, h2.2.1.trans h1.2.1, h2.2.2.1.trans h1.2.2.1,
    fun h => h2.2.2.2 (h1.2.2.2 h)⟩

theorem keeps_list_refl (cols : List Collectible) :
    List.Forall₂ Collectible.Keeps cols cols :=
  List.forall₂_same.mpr (fun c _ => keeps_refl c)

theorem keeps_list_trans {as bs cs : List Collectible}
    (h1 : List.Forall₂ Collectible.Keeps as bs) (h2 : List.Forall₂ Collectible.Keeps bs cs) :
    List.Forall₂ Collectible.Keeps as cs := by
  induction h1 generalizing cs with
  | nil => cases h2; exact List.Forall₂.nil
  | cons hab _ ih =>
    cases h2 with
    | cons hbc hrest => exact List.Forall₂.cons (keeps_trans hab hbc) (ih hrest)

theorem collectBody_keeps (toX toY : Int) (p : Player) (score : Int) (col : Collectible) :
    col.Keeps (collectBody toX toY p score col).2.2 := by
  unfold World.collectBody Collectible.Keeps
  split_ifs <;> simp

theorem collectLoop_keeps (toX toY : Int) (cols : List Collectible) :
    ∀ (p : Player) (score : Int),
      List.Forall₂ Collectible.Keeps cols (collectLoop toX toY p score cols).2.2 := by
  induction cols with
  | nil => intro p score; simp [World.collectLoop]
  | cons col rest ih =>
    intro p score
    simp only [World.collectLoop]
    exact List.Forall₂.cons (collectBody_keeps toX toY p score col) (ih _ _)

theorem collectBody_collects (toX toY : Int) (p : Player) (score : Int) (col : Collectible)
    (hx : col.x = toX) (hy : col.y = toY) :
    (collectBody toX toY p score col).2.2.collected = true := by
  unfold World.collectBody
  cases hc : col.collected
  · simp only [hc, hx, hy, Bool.not_false, beq_self_eq_true, Bool.and_self, if_true]
    split_ifs <;> rfl
  · simp [hc]

/-- After the collectible loop every collectible lying on the target is
flagged collected. -/
theorem collectLoop_collects (toX toY : Int) (cols : List Collectible) :
    ∀ (p : Player) (score : Int), ∀ c ∈ (collectLoop toX toY p score cols).2.2,
      c.x = toX → c.y = toY → c.collected = true := by
  induction cols with
  | nil => intro p score c hc; simp [World.collectLoop] at hc
  | cons col rest ih =>
    intro p score c hc hx hy
    simp only [World.collectLoop, List.mem_cons] at hc
    rcases hc with hc | hc
    · have hk := collectBody_keeps toX toY p score col
      rw [← hc] at hk
      have hx2 : col.x = toX := by rw [← hk.1]; exact hx
      have hy2 : col.y = toY := by rw [← hk.2.1]; exact hy
      rw [hc]
      exact collectBody_collects toX toY p score col hx2 hy2
    · exact ih _ _ c hc hx hy

/-- With exactly one uncollected collectible on the target, the loop has the
effect of its body on that collectible alone. -/
theorem collectLoop_single (toX toY : Int) (c : Collectible) (cols : List Collectible) :
    ∀ (p : Player) (score : Int),
      cols.filter (fun d => decide (d.Pending toX toY)) = [c] →
      (collectLoop toX toY p score cols).1 = (collectBody toX toY p score c).1 ∧
      (collectLoop toX toY p score cols).2.1 = (collectBody toX toY p score c).2.1 := by
  induction cols with
  | nil => intro p score h; simp at h
  | cons col rest ih =>
    intro p score h
    by_cases hp : col.Pending toX toY
    · rw [List.filter_cons_of_pos (by simpa using hp)] at h
      have hcol : col = c := (List.cons.inj h).1
      have hrest : rest.filter (fun d => decide (d.Pending toX toY)) = [] := (List.cons.inj h).2
      have hnone : ∀ d ∈ rest, ¬ d.Pending toX toY := by
        intro d hd
        have := List.filter_eq_nil_iff.mp hrest d hd
        simpa using this
      simp only [World.collectLoop]
      rw [collectLoop_none_pending toX toY rest _ _ hnone, hcol]
      exact ⟨rfl, rfl⟩
    · rw [List.filter_cons_of_neg (by simpa using hp)] at h
      simp only [World.collectLoop]
      rw [collectBody_not_pending toX toY p score col hp]
      exact ih p score h

theorem pending_of_filter_single (toX toY : Int) (c : Collectible) (cols : List Collectible)
    (h : cols.filter (fun d => decide (d.Pending toX toY)) = [c]) : c.Pending toX toY := by
  have hm : c ∈ cols.filter (fun d => decide (d.Pending toX toY)) := by
    rw [h]
    exact List.mem_singleton_self c
  simpa using (List.mem_filter.mp hm).2

theorem collectBody_pending (toX toY : Int) (p : Player) (score : Int) (c : Collectible)
    (h : c.Pending toX toY) :
    (c.type = COIN →
      (collectBody toX toY p score c).1 = p ∧ (collectBody toX toY p score c).2.1 = score + 50) ∧
    (c.type = BATTERY_PACK →
      (collectBody toX toY p score c).1 = p.rechargeBattery 30 ∧
      (collectBody toX toY p score c).2.1 = score + 20) ∧
    (c.type = OXYGEN_TANK →
      (collectBody toX toY p score c).1 = p.addOxygen 40 ∧
      (collectBody toX toY p score c).2.1 = score + 20) := by
  obtain ⟨hc, hx, hy⟩ := h
  unfold World.collectBody
  refine ⟨?_, ?_, ?_⟩ <;> intro ht <;>
    simp [hc, hx, hy, ht, COIN, BATTERY_PACK, OXYGEN_TANK]

/-- The player and the score after the success branch when exactly one
uncollected collectible lies on the target. -/
theorem moved_single (w : World) (toX toY : Int) (c : Collectible)
    (hone : w.collectibles.filter (fun d => decide (d.Pending toX toY)) = [c]) :
    (c.type = COIN →
      (w.moved toX toY).player = (w.player.setPosition toX toY).consumeOxygen 2 ∧
      (w.moved toX toY).score = w.score + 50) ∧
    (c.type = BATTERY_PACK →
      (w.moved toX toY).player
        = ((w.player.setPosition toX toY).consumeOxygen 2).rechargeBattery 30 ∧
      (w.moved toX toY).score = w.score + 20) ∧
    (c.type = OXYGEN_TANK →
      (w.moved toX toY).player = ((w.player.setPosition toX toY).consumeOxygen 2).addOxygen 40 ∧
      (w.moved toX toY).score = w.score + 20) := by
  have hs := collectLoop_single toX toY c w.collectibles
    ((w.player.setPosition toX toY).consumeOxygen 2) w.score hone
  have hb := collectBody_pending toX toY ((w.player.setPosition toX toY).consumeOxygen 2)
    w.score c (pending_of_filter_single toX toY c w.collectibles hone)
  simp only [World.moved]
  rw [hs.1, hs.2]
  exact hb

/-- C8: a successful player move onto a tile holding exactly one uncollected
collectible: a BatteryPack gives battery `min (b + 30) 100`, oxygen
`max (o - 2) 0`, score `s + 20`; an OxygenTank gives oxygen
`min (max (o - 2) 0 + 40) 100`, battery `b`, score `s + 20`; a Coin gives score
`s + 50`, battery `b`, oxygen `max (o - 2) 0`. -/
theorem pickup_effects (w : World) (fromX fromY toX toY : Int) (c : Collectible)
    (hmove : (w.requestMove fromX fromY toX toY true).1 = true)
    (hone : w.collectibles.filter (fun d => decide (d.Pending toX toY)) = [c]) :
    (c.type = BATTERY_PACK →
      (w.requestMove fromX fromY toX toY true).2.player.battery
        = min (w.player.battery + 30) 100 ∧
      (w.requestMove fromX fromY toX toY true).2.player.oxygen = max (w.player.oxygen - 2) 0 ∧
      (w.requestMove fromX fromY toX toY true).2.score = w.score + 20) ∧
    (c.type = OXYGEN_TANK →
      (w.requestMove fromX fromY toX toY true).2.player.oxygen
        = min (max (w.player.oxygen - 2) 0 + 40) 100 ∧
      (w.requestMove fromX fromY toX toY true).2.player.battery = w.player.battery ∧
      (w.requestMove fromX fromY toX toY true).2.score = w.score + 20) ∧
    (c.type = COIN →
      (w.requestMove fromX fromY toX toY true).2.score = w.score + 50 ∧
      (w.requestMove fromX fromY toX toY true).2.player.battery = w.player.battery ∧
      (w.requestMove fromX fromY toX toY true).2.player.oxygen = max (w.player.oxygen - 2) 0) := by
  rw [requestMove_true w fromX fromY toX toY hmove]
  have hm := moved_single w toX toY c hone
  have ho : ((w.player.setPosition toX toY).consumeOxygen 2).oxygen
      = max (w.player.oxygen - 2) 0 := Player.consumeOxygen_oxygen (w.player.setPosition toX toY) 2
  have hbat : ((w.player.setPosition toX toY).consumeOxygen 2).battery = w.player.battery := rfl
  dsimp only
  refine ⟨?_, ?_, ?_⟩
  · intro ht
    rw [(hm.2.1 ht).1, (hm.2.1 ht).2, Player.rechargeBattery_battery, hbat]
    exact ⟨rfl, ho, rfl⟩
  · intro ht
    rw [(hm.2.2 ht).1, (hm.2.2 ht).2, Player.addOxygen_oxygen, ho]
    exact ⟨rfl, hbat, rfl⟩
  · intro ht
    rw [(hm.1 ht).1, (hm.1 ht).2]
    exact ⟨rfl, hbat, ho⟩

/-! ## What `updateEnemies` leaves alone -/

theorem movingEnemy_move_damage (e : Enemy) (w : World) (r : Rand) :
    (MovingEnemy.move e w r).1.damage = e.damage := by
  unfold MovingEnemy.move
  dsimp only
  split_ifs <;> rfl

theorem enemy_move_damage (e : Enemy) (w : World) (r : Rand) :
    (e.move w r).1.damage = e.damage := by
  unfold Enemy.move
  cases e.kind
  · rfl
  · exact movingEnemy_move_damage e w r

theorem updateBody_damage (w : World) (e : Enemy) (p : Player) (r : Rand) :
    (updateBody w e p r).1.damage = e.damage := by
  unfold World.updateBody
  dsimp only
  generalize hE : (if (decide (|p.x - e.x| ≤ 3) && decide (|p.y - e.y| ≤ 3) &&
    w.illuminated e.y e.x) = true then e.makeVisible.activate else e) = e1
  have h1 : e1.damage = e.damage := by
    rw [← hE]
    split_ifs <;> rfl
  rw [← h1]
  split_ifs
  · exact enemy_move_damage e1 w r
  · rfl

theorem updateBody_player (w : World) (e : Enemy) (p : Player) (r : Rand) :
    (updateBody w e p r).2.1 = p ∨ (updateBody w e p r).2.1 = p.takeDamage e.damage := by
  have hd := updateBody_damage w e p r
  have hp : (updateBody w e p r).2.1 =
      if (updateBody w e p r).1.x == p.x && (updateBody w e p r).1.y == p.y then
        p.takeDamage (updateBody w e p r).1.damage
      else p := rfl
  rw [hp, hd]
  split_ifs
  · exact Or.inr rfl
  · exact Or.inl rfl

theorem updateLoop_damage (w : World) (es : List Enemy) :
    ∀ (p : Player) (r : Rand),
      (updateLoop w es p r).1.map Enemy.damage = es.map Enemy.damage := by
  induction es with
  | nil => intro p r; simp [World.updateLoop]
  | cons e rest ih =>
    intro p r
    simp only [World.updateLoop, List.map_cons]
    rw [ih, updateBody_damage]

theorem Player.takeDamage_frame (p : Player) (amount : Int) :
    (p.takeDamage amount).x = p.x ∧ (p.takeDamage amount).y = p.y ∧
      (p.takeDamage amount).oxygen = p.oxygen ∧ (p.takeDamage amount).battery = p.battery ∧
      (p.takeDamage amount).lives = p.lives :=
  ⟨rfl, rfl, rfl, rfl, rfl⟩

/-- The loop of `updateEnemies` touches no field of the player but the health. -/
theorem updateLoop_player_frame (w : World) (es : List Enemy) :
    ∀ (p : Player) (r : Rand),
      (updateLoop w es p r).2.1.x = p.x ∧ (updateLoop w es p r).2.1.y = p.y ∧
      (updateLoop w es p r).2.1.oxygen = p.oxygen ∧
      (updateLoop w es p r).2.1.battery = p.battery ∧
      (updateLoop w es p r).2.1.lives = p.lives := by
  induction es with
  | nil => intro p r; simp [World.updateLoop]
  | cons e rest ih =>
    intro p r
    simp only [World.updateLoop]
    have h := ih (updateBody w e p r).2.1 (updateBody w e p r).2.2
    have hb : (updateBody w e p r).2.1.x = p.x ∧ (updateBody w e p r).2.1.y = p.y ∧
        (updateBody w e p r).2.1.oxygen = p.oxygen ∧
        (updateBody w e p r).2.1.battery = p.battery ∧
        (updateBody w e p r).2.1.lives = p.lives := by
      rcases updateBody_player w e p r with hp | hp
      · rw [hp]
        exact ⟨rfl, rfl, rfl, rfl, rfl⟩
      · rw [hp]
        exact p.takeDamage_frame e.damage
    exact ⟨h.1.trans hb.1, h.2.1.trans hb.2.1, h.2.2.1.trans hb.2.2.1,
      h.2.2.2.1.trans hb.2.2.2.1, h.2.2.2.2.trans hb.2.2.2.2⟩

theorem Player.takeDamage_dead (p : Player) (amount : Int)
    (hp : p.health ≤ 0) (ha : 0 ≤ amount) : (p.takeDamage amount).health ≤ 0 := by
  rw [Player.takeDamage_health]
  omega

theorem updateLoop_dead (w : World) (es : List Enemy) :
    ∀ (p : Player) (r : Rand), p.health ≤ 0 → (∀ e ∈ es, 0 ≤ e.damage) →
      (updateLoop w es p r).2.1.health ≤ 0 := by
  induction es with
  | nil => intro p r hp _; simpa [World.updateLoop] using hp
  | cons e rest ih =>
    intro p r hp hd
    simp only [World.updateLoop]
    apply ih
    · rcases updateBody_player w e p r with h | h
      · rw [h]
        exact hp
      · rw [h]
        exact Player.takeDamage_dead p e.damage hp (hd e (List.mem_cons_self _ _))
    · intro a ha
      exact hd a (List.mem_cons_of_mem _ ha)

theorem illuminateEnemies_damage (x y : Int) (es : List Enemy) :
    (illuminateEnemies x y es).map Enemy.damage = es.map Enemy.damage := by
  unfold World.illuminateEnemies
  rw [List.map_map]
  apply List.map_congr_left
  intro e _
  simp only [Function.comp]
  split_ifs <;> rfl

/-- The three ways a call of `illuminateTile` can end. -/
theorem illuminateTile_cases (w : World) (x y : Int) :
    w.illuminateTile x y = w ∨
    w.illuminateTile x y =
      { w with player := { w.player with battery := w.player.battery - 5 },
               illuminated := setCell w.illuminated y x true,
               enemies := illuminateEnemies x y w.enemies } := by
  by_cases h : 5 ≤ w.player.battery ∧ InBounds x y
  · right
    unfold World.illuminateTile
    have hin : x ≥ 0 ∧ x < MAP_WIDTH ∧ y ≥ 0 ∧ y < MAP_HEIGHT := by
      have hb := h.2
      unfold InBounds at hb
      simp only [MAP_WIDTH, MAP_HEIGHT]
      omega
    have hu : w.player.useBattery =
        (true, { w.player with battery := w.player.battery - 5 }) := by
      simp [Player.useBattery, BATTERY_COST, h.1]
    simp only [hin, hu]
    simp
  · left
    unfold World.illuminateTile
    by_cases hin : x ≥ 0 ∧ x < MAP_WIDTH ∧ y ≥ 0 ∧ y < MAP_HEIGHT
    · have hlow : ¬ 5 ≤ w.player.battery := by
        intro h5
        apply h
        refine ⟨h5, ?_⟩
        simp only [MAP_WIDTH, MAP_HEIGHT] at hin
        unfold InBounds
        omega
      have hu : w.player.useBattery = (false, w.player) := by
        unfold Player.useBattery
        simp only [BATTERY_COST]
        rw [if_neg hlow]
      simp only [if_pos hin, hu]
      rfl
    · simp only [if_neg hin]

/-! ## One call, then any sequence of calls -/

theorem forall₂_mem_right {α β : Type} {R : α → β → Prop} {as : List α} {bs : List β}
    (h : List.Forall₂ R as bs) : ∀ b ∈ bs, ∃ a ∈ as, R a b := by
  induction h with
  | nil => intro b hb; cases hb
  | cons hab _ ih =>
    intro b hb
    rcases List.mem_cons.mp hb with hb | hb
    · exact ⟨_, List.mem_cons_self _ _, hb ▸ hab⟩
    · obtain ⟨a, ha, hr⟩ := ih b hb
      exact ⟨a, List.mem_cons_of_mem _ ha, hr⟩

theorem updateEnemies_eq (w : World) (r : Rand) :
    (w.updateEnemies r).1 =
      { w with player := (updateLoop w w.enemies w.player r).2.1,
               enemies := (updateLoop w w.enemies w.player r).1 } := rfl

theorem step_keeps (w : World) (op : Op) :
    List.Forall₂ Collectible.Keeps w.collectibles (w.step op).collectibles := by
  cases op with
  | requestMove fromX fromY toX toY isPlayer =>
    simp only [World.step]
    rcases requestMove_cases w fromX fromY toX toY isPlayer with ⟨b, h⟩ | h | ⟨e, _, h⟩ | h
    · rw [h]; exact keeps_list_refl _
    · rw [h]; exact keeps_list_refl _
    · rw [h]; exact keeps_list_refl _
    · rw [h]; exact collectLoop_keeps toX toY w.collectibles _ _
  | illuminateTile x y =>
    simp only [World.step]
    rcases illuminateTile_cases w x y with h | h
    · rw [h]; exact keeps_list_refl _
    · rw [h]; exact keeps_list_refl _
  | updateEnemies r =>
    simp only [World.step, updateEnemies_eq]
    exact keeps_list_refl _

theorem run_keeps (ops : List Op) :
    ∀ w : World, List.Forall₂ Collectible.Keeps w.collectibles (w.run ops).collectibles := by
  induction ops with
  | nil => intro w; exact keeps_list_refl _
  | cons op rest ih =>
    intro w
    exact keeps_list_trans (step_keeps w op) (ih (w.step op))

theorem step_damage (w : World) (op : Op) :
    (w.step op).enemies.map Enemy.damage = w.enemies.map Enemy.damage := by
  cases op with
  | requestMove fromX fromY toX toY isPlayer =>
    simp only [World.step]
    rcases requestMove_cases w fromX fromY toX toY isPlayer with ⟨b, h⟩ | h | ⟨e, _, h⟩ | h
    · rw [h]
    · rw [h]
    · rw [h]
    · rw [h]; rfl
  | illuminateTile x y =>
    simp only [World.step]
    rcases illuminateTile_cases w x y with h | h
    · rw [h]
    · rw [h]; exact illuminateEnemies_damage x y w.enemies
  | updateEnemies r =>
    simp only [World.step, updateEnemies_eq]
    exact updateLoop_damage w w.enemies w.player r

theorem damage_nonneg_of_map {es fs : List Enemy}
    (h : fs.map Enemy.damage = es.map Enemy.damage) (hd : ∀ e ∈ es, 0 ≤ e.damage) :
    ∀ e ∈ fs, 0 ≤ e.damage := by
  intro e he
  have hm : e.damage ∈ es.map Enemy.damage := by
    rw [← h]
    exact List.mem_map_of_mem _ he
  obtain ⟨a, ha, hda⟩ := List.mem_map.mp hm
  rw [← hda]
  exact hd a ha

theorem step_dead_health (w : World) (op : Op)
    (hp : w.player.health ≤ 0) (hd : ∀ e ∈ w.enemies, 0 ≤ e.damage) :
    (w.step op).player.health ≤ 0 := by
  cases op with
  | requestMove fromX fromY toX toY isPlayer =>
    simp only [World.step]
    rcases requestMove_cases w fromX fromY toX toY isPlayer with ⟨b, h⟩ | h | ⟨e, he, h⟩ | h
    · rw [h]; exact hp
    · rw [h]; exact hp
    · rw [h]; exact Player.takeDamage_dead w.player e.damage hp (hd e he)
    · rw [h]
      simp only [World.moved]
      rw [(collectLoop_frame toX toY w.collectibles _ _).2.2.1]
      exact hp
  | illuminateTile x y =>
    simp only [World.step]
    rcases illuminateTile_cases w x y with h | h
    · rw [h]; exact hp
    · rw [h]; exact hp
  | updateEnemies r =>
    simp only [World.step, updateEnemies_eq]
    exact updateLoop_dead w w.enemies w.player r hp hd

theorem run_dead_health (ops : List Op) :
    ∀ w : World, w.player.health ≤ 0 → (∀ e ∈ w.enemies, 0 ≤ e.damage) →
      (w.run ops).player.health ≤ 0 := by
  induction ops with
  | nil => intro w hp _; exact hp
  | cons op rest ih =>
    intro w hp hd
    exact ih (w.step op) (step_dead_health w op hp hd)
      (damage_nonneg_of_map (step_damage w op) hd)

theorem collectBody_oxygen (toX toY : Int) (p : Player) (score : Int) (col : Collectible)
    (h : col.type = OXYGEN_TANK → col.collected = true) :
    (collectBody toX toY p score col).1.oxygen = p.oxygen := by
  unfold World.collectBody
  split_ifs with hpend h1 h2 h3
  · rfl
  · rfl
  · exfalso
    have ht : col.type = OXYGEN_TANK := by simpa using h3
    have hc := h ht
    simp [hc] at hpend
  · rfl
  · rfl

theorem collectLoop_oxygen (toX toY : Int) (cols : List Collectible) :
    ∀ (p : Player) (score : Int),
      (∀ c ∈ cols, c.type = OXYGEN_TANK → c.collected = true) →
      (collectLoop toX toY p score cols).1.oxygen = p.oxygen := by
  induction cols with
  | nil => intro p score _; simp [World.collectLoop]
  | cons col rest ih =>
    intro p score h
    simp only [World.collectLoop]
    rw [ih _ _ (fun c hc => h c (List.mem_cons_of_mem _ hc))]
    exact collectBody_oxygen toX toY p score col (h col (List.mem_cons_self _ _))

theorem tanks_collected_of_keeps {cols cols2 : List Collectible}
    (hk : List.Forall₂ Collectible.Keeps cols cols2)
    (h : ∀ c ∈ cols, c.type = OXYGEN_TANK → c.collected = true) :
    ∀ c ∈ cols2, c.type = OXYGEN_TANK → c.collected = true := by
  intro c hc ht
  obtain ⟨a, ha, hr⟩ := forall₂_mem_right hk c hc
  exact hr.2.2.2 (h a ha (hr.2.2.1 ▸ ht))

theorem step_dead_oxygen (w : World) (op : Op)
    (hp : w.player.oxygen ≤ 0)
    (ht : ∀ c ∈ w.collectibles, c.type = OXYGEN_TANK → c.collected = true) :
    (w.step op).player.oxygen ≤ 0 := by
  have hcons : (w.player.consumeOxygen 2).oxygen ≤ 0 := by
    rw [Player.consumeOxygen_oxygen]
    omega
  cases op with
  | requestMove fromX fromY toX toY isPlayer =>
    simp only [World.step]
    rcases requestMove_cases w fromX fromY toX toY isPlayer with ⟨b, h⟩ | h | ⟨e, he, h⟩ | h
    · rw [h]; exact hp
    · rw [h]; exact hcons
    · rw [h]; exact hp
    · rw [h]
      simp only [World.moved]
      rw [collectLoop_oxygen toX toY w.collectibles _ _ ht]
      exact hcons
  | illuminateTile x y =>
    simp only [World.step]
    rcases illuminateTile_cases w x y with h | h
    · rw [h]; exact hp
    · rw [h]; exact hp
  | updateEnemies r =>
    simp only [World.step, updateEnemies_eq]
    rw [(updateLoop_player_frame w w.enemies w.player r).2.2.1]
    exact hp

theorem run_dead_oxygen (ops : List Op) :
    ∀ w : World, w.player.oxygen ≤ 0 →
      (∀ c ∈ w.collectibles, c.type = OXYGEN_TANK → c.collected = true) →
      (w.run ops).player.oxygen ≤ 0 := by
  induction ops with
  | nil => intro w hp _; exact hp
  | cons op rest ih =>
    intro w hp ht
    exact ih (w.step op) (step_dead_oxygen w op hp ht)
      (tanks_collected_of_keeps (step_keeps w op) ht)

/-- C3 (amended): death is permanent when the player died of health depletion
and no enemy has a negative damage, and when the player died of oxygen
depletion and no uncollected OxygenTank is left: after any finite sequence of
`requestMove`, `illuminateTile` and `updateEnemies` calls, with any random
draws, `isGameOver()` is still true. -/
theorem game_over_permanent (w : World) (ops : List Op)
    (h : (w.player.health ≤ 0 ∧ ∀ e ∈ w.enemies, 0 ≤ e.damage) ∨
      (w.player.oxygen ≤ 0 ∧
        ∀ c ∈ w.collectibles, c.type = OXYGEN_TANK → c.collected = true)) :
    w.isGameOver = true ∧ (w.run ops).isGameOver = true := by
  simp only [World.isGameOver, Player.isDead, Bool.or_eq_true, decide_eq_true_eq]
  rcases h with ⟨hp, hd⟩ | ⟨hp, ht⟩
  · exact ⟨Or.inl hp, Or.inl (run_dead_health ops w hp hd)⟩
  · exact ⟨Or.inr hp, Or.inr (run_dead_oxygen ops w hp ht)⟩

/-- C2 (amended): `requestMove` and `illuminateTile` do not check
`isGameOver()`.  For a world whose player is dead with health 0 and whose
enemies have no negative damage, a player `requestMove` leaves the health at 0,
the enemies (positions and flags) and the map unchanged, an `illuminateTile`
leaves the player's position, health and oxygen, the collectibles and the score
unchanged, and the game is still over after either call. -/
theorem dead_player_calls_frame (w : World) (fromX fromY toX toY x y : Int)
    (hdead : w.player.health = 0) (hdmg : ∀ e ∈ w.enemies, 0 ≤ e.damage) :
    w.isGameOver = true ∧
    ((w.requestMove fromX fromY toX toY true).2.player.health = 0 ∧
      (w.requestMove fromX fromY toX toY true).2.enemies = w.enemies ∧
      (w.requestMove fromX fromY toX toY true).2.map = w.map ∧
      (w.requestMove fromX fromY toX toY true).2.isGameOver = true) ∧
    ((w.illuminateTile x y).player.x = w.player.x ∧
      (w.illuminateTile x y).player.y = w.player.y ∧
      (w.illuminateTile x y).player.health = 0 ∧
      (w.illuminateTile x y).player.oxygen = w.player.oxygen ∧
      (w.illuminateTile x y).collectibles = w.collectibles ∧
      (w.illuminateTile x y).score = w.score ∧
      (w.illuminateTile x y).isGameOver = true) := by
  have hover : ∀ v : World, v.player.health = 0 → v.isGameOver = true := by
    intro v hv
    simp [World.isGameOver, Player.isDead, hv]
  have hmove : (w.requestMove fromX fromY toX toY true).2.player.health = 0 ∧
      (w.requestMove fromX fromY toX toY true).2.enemies = w.enemies ∧
      (w.requestMove fromX fromY toX toY true).2.map = w.map := by
    rcases requestMove_cases w fromX fromY toX toY true with ⟨b, h⟩ | h | ⟨e, he, h⟩ | h
    · rw [h]; exact ⟨hdead, rfl, rfl⟩
    · rw [h]; exact ⟨hdead, rfl, rfl⟩
    · rw [h]
      refine ⟨?_, rfl, rfl⟩
      have h0 := hdmg e he
      show (w.player.takeDamage e.damage).health = 0
      rw [Player.takeDamage_health, hdead]
      omega
    · rw [h]
      refine ⟨?_, rfl, rfl⟩
      simp only [World.moved]
      rw [(collectLoop_frame toX toY w.collectibles _ _).2.2.1]
      exact hdead
  have hlit : (w.illuminateTile x y).player.x = w.player.x ∧
      (w.illuminateTile x y).player.y = w.player.y ∧
      (w.illuminateTile x y).player.health = 0 ∧
      (w.illuminateTile x y).player.oxygen = w.player.oxygen ∧
      (w.illuminateTile x y).collectibles = w.collectibles ∧
      (w.illuminateTile x y).score = w.score := by
    rcases illuminateTile_cases w x y with h | h
    · rw [h]; exact ⟨rfl, rfl, hdead, rfl, rfl, rfl⟩
    · rw [h]; exact ⟨rfl, rfl, hdead, rfl, rfl, rfl⟩
  exact ⟨hover w hdead, ⟨hmove.1, hmove.2.1, hmove.2.2, hover _ hmove.1⟩,
    ⟨hlit.1, hlit.2.1, hlit.2.2.1, hlit.2.2.2.1, hlit.2.2.2.2.1, hlit.2.2.2.2.2,
      hover _ hlit.2.2.1⟩⟩

/-- After a successful player move onto `(toX, toY)` and any calls that follow,
nothing uncollected lies on `(toX, toY)`. -/
theorem none_pending_after_move (w : World) (fromX fromY toX toY : Int) (ops : List Op)
    (hfirst : (w.requestMove fromX fromY toX toY true).1 = true) :
    ∀ c ∈ (((w.requestMove fromX fromY toX toY true).2).run ops).collectibles,
      ¬ c.Pending toX toY := by
  have h1 : ∀ c ∈ (w.requestMove fromX fromY toX toY true).2.collectibles,
      c.x = toX → c.y = toY → c.collected = true := by
    rw [requestMove_true w fromX fromY toX toY hfirst]
    exact collectLoop_collects toX toY w.collectibles _ _
  have hk := run_keeps ops (w.requestMove fromX fromY toX toY true).2
  intro c hc hp
  obtain ⟨a, ha, hr⟩ := forall₂_mem_right hk c hc
  have hcol := hr.2.2.2 (h1 a ha (hr.1 ▸ hp.2.1) (hr.2.1 ▸ hp.2.2))
  rw [hp.1] at hcol
  exact Bool.false_ne_true hcol

/-- The success branch on a tile where nothing uncollected lies. -/
theorem moved_none_pending (v : World) (toX toY : Int)
    (hnone : ∀ c ∈ v.collectibles, ¬ c.Pending toX toY) :
    v.moved toX toY =
      { v with player := (v.player.setPosition toX toY).consumeOxygen 2,
               illuminated := setCell v.illuminated toY toX true } := by
  simp only [World.moved]
  rw [collectLoop_none_pending toX toY _ _ _ hnone]

/-- C7: a collectible is collected at most once.  After a successful player
move onto `(toX, toY)` every collectible lying there is flagged collected; over
any sequence of `requestMove`, `illuminateTile` and `updateEnemies` calls every
collectible keeps its place and type and a set collected flag stays set; every
later successful move onto `(toX, toY)` leaves score, battery and collectibles
as they are and only charges the 2 oxygen of the move; and when exactly one
uncollected collectible lies on `(toX, toY)` and it is a Coin, the first move
raises the score by exactly 50. -/
theorem collected_at_most_once :
    (∀ (w : World) (fromX fromY toX toY : Int),
      (w.requestMove fromX fromY toX toY true).1 = true →
      ∀ c ∈ (w.requestMove fromX fromY toX toY true).2.collectibles,
        c.x = toX → c.y = toY → c.collected = true) ∧
    (∀ (w : World) (ops : List Op),
      List.Forall₂ Collectible.Keeps w.collectibles (w.run ops).collectibles) ∧
    (∀ (w : World) (fromX fromY toX toY : Int) (ops : List Op) (gx gy : Int),
      (w.requestMove fromX fromY toX toY true).1 = true →
      ((((w.requestMove fromX fromY toX toY true).2).run ops).requestMove
        gx gy toX toY true).1 = true →
      ((((w.requestMove fromX fromY toX toY true).2).run ops).requestMove
          gx gy toX toY true).2.score
        = (((w.requestMove fromX fromY toX toY true).2).run ops).score ∧
      ((((w.requestMove fromX fromY toX toY true).2).run ops).requestMove
          gx gy toX toY true).2.player.battery
        = (((w.requestMove fromX fromY toX toY true).2).run ops).player.battery ∧
      ((((w.requestMove fromX fromY toX toY true).2).run ops).requestMove
          gx gy toX toY true).2.player.oxygen
        = max ((((w.requestMove fromX fromY toX toY true).2).run ops).player.oxygen - 2) 0 ∧
      ((((w.requestMove fromX fromY toX toY true).2).run ops).requestMove
          gx gy toX toY true).2.collectibles
        = (((w.requestMove fromX fromY toX toY true).2).run ops).collectibles) ∧
    (∀ (w : World) (fromX fromY toX toY : Int) (c : Collectible),
      (w.requestMove fromX fromY toX toY true).1 = true →
      w.collectibles.filter (fun d => decide (d.Pending toX toY)) = [c] → c.type = COIN →
      (w.requestMove fromX fromY toX toY true).2.score = w.score + 50) := by
  refine ⟨?_, fun w ops => run_keeps ops w, ?_, ?_⟩
  · intro w fromX fromY toX toY hfirst
    rw [requestMove_true w fromX fromY toX toY hfirst]
    exact collectLoop_collects toX toY w.collectibles _ _
  · intro w fromX fromY toX toY ops gx gy hfirst hlater
    rw [requestMove_true _ gx gy toX toY hlater,
      moved_none_pending _ toX toY (none_pending_after_move w fromX fromY toX toY ops hfirst)]
    exact ⟨rfl, rfl, Player.consumeOxygen_oxygen _ 2, rfl⟩
  · intro w fromX fromY toX toY c hfirst hone ht
    rw [requestMove_true w fromX fromY toX toY hfirst]
    exact ((moved_single w toX toY c hone).1 ht).2

/-! ## Concrete runs that contradict the specification -/

/-- C2 as stated fails: with health 0 the game is over, yet a move onto the open
tile (6,5) still moves the player and costs oxygen, and illuminating (6,5) still
costs battery and reveals the tile. -/
theorem dead_player_still_acts :
    (diverWorld 0 100 []).isGameOver = true ∧
      ((diverWorld 0 100 []).requestMove 5 5 6 5 true).1 = true ∧
      ((diverWorld 0 100 []).requestMove 5 5 6 5 true).2.player.x = 6 ∧
      ((diverWorld 0 100 []).requestMove 5 5 6 5 true).2.player.oxygen = 98 ∧
      (diverWorld 0 100 []).illuminated 5 6 = false ∧
      ((diverWorld 0 100 []).requestMove 5 5 6 5 true).2.illuminated 5 6 = true ∧
      ((diverWorld 0 100 []).illuminateTile 6 5).player.battery = 95 ∧
      ((diverWorld 0 100 []).illuminateTile 6 5).illuminated 5 6 = true := by
  decide

/-- C3 as stated fails: a player with oxygen 0 is dead, steps onto (6,5) where
an uncollected OxygenTank lies, ends with oxygen 40, and the game is no longer
over. -/
theorem oxygen_tank_revives :
    (diverWorld 100 0 [⟨6, 5, OXYGEN_TANK, false⟩]).isGameOver = true ∧
      ((diverWorld 100 0 [⟨6, 5, OXYGEN_TANK, false⟩]).requestMove 5 5 6 5 true).1 = true ∧
      ((diverWorld 100 0 [⟨6, 5, OXYGEN_TANK, false⟩]).requestMove 5 5 6 5 true).2.player.oxygen
        = 40 ∧
      ((diverWorld 100 0 [⟨6, 5, OXYGEN_TANK, false⟩]).requestMove 5 5 6 5 true).2.isGameOver
        = false := by
  decide

/-! ## Instances on sample worlds -/

theorem resource_ops_stay_in_range_witness :
    (Player.new 5 5).InRange ∧ (0 : Int) ≤ 2147483547 ∧ (2147483547 : Int) ≤ INT_MAX ∧
      (Player.new 5 5).oxygen + 2147483547 ≤ INT_MAX ∧
      (Player.new 5 5).battery + 2147483547 ≤ INT_MAX ∧
      ((Player.new 5 5).takeDamage 2147483547).InRange ∧
      ((Player.new 5 5).addOxygen 2147483547).InRange ∧
      ((Player.new 5 5).rechargeBattery 2147483547).InRange :=
  ⟨by decide, by decide, by decide, by decide, by decide,
    (resource_ops_stay_in_range (Player.new 5 5) 2147483547 (by decide) (by decide)
      (by decide)).1.1,
    (resource_ops_stay_in_range (Player.new 5 5) 2147483547 (by decide) (by decide)
      (by decide)).2.2.1 (by decide),
    (resource_ops_stay_in_range (Player.new 5 5) 2147483547 (by decide) (by decide)
      (by decide)).2.2.2.1 (by decide)⟩

theorem dead_player_calls_frame_witness :
    deadWorld.player.health = 0 ∧ (∀ e ∈ deadWorld.enemies, 0 ≤ e.damage) ∧
      (deadWorld.requestMove 5 5 6 5 true).2.player.health = 0 ∧
      (deadWorld.illuminateTile 6 5).score = deadWorld.score :=
  ⟨by decide, by decide,
    (dead_player_calls_frame deadWorld 5 5 6 5 6 5 (by decide) (by decide)).2.1.1,
    (dead_player_calls_frame deadWorld 5 5 6 5 6 5 (by decide) (by decide)).2.2.2.2.2.2.2.1⟩

theorem game_over_permanent_witness :
    (deadWorld.player.health ≤ 0 ∧ ∀ e ∈ deadWorld.enemies, 0 ≤ e.damage) ∧
      (deadWorld.run sampleOps).isGameOver = true :=
  ⟨⟨by decide, by decide⟩,
    (game_over_permanent deadWorld sampleOps (Or.inl ⟨by decide, by decide⟩)).2⟩

theorem requestMove_blocked_costs_oxygen_witness :
    (¬ InBounds 0 5 ∨ (diverWorld 100 100 []).map 5 0 = 'x') ∧
      (diverWorld 100 100 []).requestMove 1 5 0 5 true =
        (false, { diverWorld 100 100 [] with
          player := { (diverWorld 100 100 []).player with
            oxygen := max ((diverWorld 100 100 []).player.oxygen - 2) 0 } }) :=
  ⟨Or.inr (by decide),
    requestMove_blocked_costs_oxygen (diverWorld 100 100 []) 1 5 0 5 (Or.inr (by decide))⟩

theorem requestMove_enemy_bump_witness :
    InBounds 6 5 ∧ guardedWorld.map 5 6 ≠ 'x' ∧
      guardedWorld.requestMove 5 5 6 5 true =
        (false, { guardedWorld with
          player := { guardedWorld.player with
            health := max (guardedWorld.player.health - (StationaryEnemy.new 6 5).damage) 0 } }) :=
  ⟨by decide, by decide,
    requestMove_enemy_bump guardedWorld 5 5 6 5 [] [MovingEnemy.new 6 6]
      (StationaryEnemy.new 6 5) (by decide) (by decide) rfl (by simp) (by decide)⟩

theorem requestMove_free_tile_witness :
    InBounds 5 6 ∧ guardedWorld.map 6 5 ≠ 'x' ∧
      (∀ e ∈ guardedWorld.enemies, ¬ (e.x = 5 ∧ e.y = 6)) ∧
      (guardedWorld.requestMove 5 5 5 6 true).1 = true ∧
      (guardedWorld.requestMove 5 5 5 6 true).2.player.y = 6 ∧
      (guardedWorld.requestMove 5 5 5 6 true).2.illuminated 6 5 = true :=
  ⟨by decide, by decide, by decide,
    (requestMove_free_tile guardedWorld 5 5 5 6 (by decide) (by decide) (by decide)).1,
    (requestMove_free_tile guardedWorld 5 5 5 6 (by decide) (by decide) (by decide)).2.2.1,
    (requestMove_free_tile guardedWorld 5 5 5 6 (by decide) (by decide) (by decide)).2.2.2.1⟩

theorem collected_at_most_once_witness :
    ((diverWorld 100 100 [⟨6, 5, COIN, false⟩]).requestMove 5 5 6 5 true).1 = true ∧
      (((((diverWorld 100 100 [⟨6, 5, COIN, false⟩]).requestMove 5 5 6 5 true).2).run
        [Op.requestMove 6 5 7 5 true]).requestMove 7 5 6 5 true).1 = true ∧
      (((((diverWorld 100 100 [⟨6, 5, COIN, false⟩]).requestMove 5 5 6 5 true).2).run
        [Op.requestMove 6 5 7 5 true]).requestMove 7 5 6 5 true).2.score
        = ((((diverWorld 100 100 [⟨6, 5, COIN, false⟩]).requestMove 5 5 6 5 true).2).run
          [Op.requestMove 6 5 7 5 true]).score ∧
      ((diverWorld 100 100 [⟨6, 5, COIN, false⟩]).requestMove 5 5 6 5 true).2.score
        = (diverWorld 100 100 [⟨6, 5, COIN, false⟩]).score + 50 :=
  ⟨by decide, by decide,
    (collected_at_most_once.2.2.1 (diverWorld 100 100 [⟨6, 5, COIN, false⟩]) 5 5 6 5
      [Op.requestMove 6 5 7 5 true] 7 5 (by decide) (by decide)).1,
    collected_at_most_once.2.2.2 (diverWorld 100 100 [⟨6, 5, COIN, false⟩]) 5 5 6 5
      ⟨6, 5, COIN, false⟩ (by decide) (by decide) rfl⟩

theorem pickup_effects_witness :
    ((diverWorld 100 50 [⟨6, 5, OXYGEN_TANK, false⟩]).requestMove 5 5 6 5 true).1 = true ∧
      ((diverWorld 100 50 [⟨6, 5, OXYGEN_TANK, false⟩]).requestMove 5 5 6 5 true).2.player.oxygen
        = min (max ((diverWorld 100 50 [⟨6, 5, OXYGEN_TANK, false⟩]).player.oxygen - 2) 0 + 40)
          100 :=
  ⟨by decide,
    ((pickup_effects (diverWorld 100 50 [⟨6, 5, OXYGEN_TANK, false⟩]) 5 5 6 5
      ⟨6, 5, OXYGEN_TANK, false⟩ (by decide) (by decide)).2.1 rfl).1⟩

theorem illuminateTile_failed_noop_witness :
    ¬ InBounds 20 5 ∧ guardedWorld.illuminateTile 20 5 = guardedWorld :=
  ⟨by decide, illuminateTile_failed_noop guardedWorld 20 5 (Or.inr (by decide))⟩

theorem illuminateTile_success_witness :
    5 ≤ guardedWorld.player.battery ∧ InBounds 6 5 ∧
      (guardedWorld.illuminateTile 6 5).illuminated 5 6 = true ∧
      (guardedWorld.illuminateTile 6 5).illuminated 6 6 = guardedWorld.illuminated 6 6 :=
  ⟨by decide, by decide,
    (illuminateTile_success guardedWorld 6 5 (by decide) (by decide)).2.1,
    (illuminateTile_success guardedWorld 6 5 (by decide) (by decide)).2.2 6 6 (by decide)⟩

/-! ## `useBattery`, `isDead` and `isGameOver` -/

/-- C11: with battery `b ≥ 5`, `useBattery()` returns true and sets the battery
to `b - 5`; with `b < 5` it returns false and leaves the battery unchanged; in
both cases position, health, oxygen and lives are unchanged. -/
theorem useBattery_spec (p : Player) :
    (5 ≤ p.battery → p.useBattery.1 = true ∧ p.useBattery.2.battery = p.battery - 5) ∧
    (p.battery < 5 → p.useBattery.1 = false ∧ p.useBattery.2.battery = p.battery) ∧
    p.useBattery.2.x = p.x ∧ p.useBattery.2.y = p.y ∧
    p.useBattery.2.health = p.health ∧ p.useBattery.2.oxygen = p.oxygen ∧
    p.useBattery.2.lives = p.lives := by
  unfold Player.useBattery
  simp only [BATTERY_COST]
  by_cases h : 5 ≤ p.battery
  · rw [if_pos h]
    exact ⟨fun _ => ⟨rfl, rfl⟩, fun hlt => absurd h (by omega), rfl, rfl, rfl, rfl, rfl⟩
  · rw [if_neg h]
    exact ⟨fun hge => absurd hge h, fun _ => ⟨rfl, rfl⟩, rfl, rfl, rfl, rfl, rfl⟩

/-- C12: for a player whose health and oxygen are not negative, `isDead()` is
true exactly when health is 0 or oxygen is 0; and `isGameOver()` returns
`player.isDead()`. -/
theorem isDead_iff_zero :
    (∀ p : Player, 0 ≤ p.health → 0 ≤ p.oxygen →
      (p.isDead = true ↔ (p.health = 0 ∨ p.oxygen = 0))) ∧
    (∀ w : World, w.isGameOver = w.player.isDead) := by
  refine ⟨?_, fun w => rfl⟩
  intro p hh ho
  simp only [Player.isDead, Bool.or_eq_true, decide_eq_true_eq]
  constructor
  · rintro (h | h)
    · exact Or.inl (by omega)
    · exact Or.inr (by omega)
  · rintro (h | h)
    · exact Or.inl (by omega)
    · exact Or.inr (by omega)

/-! ## One-way flags: enemies and visibility -/

theorem stays_refl (e : Enemy) : e.Stays e :=
  ⟨rfl, rfl, id, id⟩

theorem stays_trans {a b c : Enemy} (h1 : a.Stays b) (h2 : b.Stays c) : a.Stays c :=
  ⟨h2.1.trans h1.1, h2.2.1.trans h1.2.1, fun h => h2.2.2.1 (h1.2.2.1 h),
    fun h => h2.2.2.2 (h1.2.2.2 h)⟩

theorem stays_list_refl (es : List Enemy) : List.Forall₂ Enemy.Stays es es :=
  List.forall₂_same.mpr (fun e _ => stays_refl e)

theorem stays_list_trans {as bs cs : List Enemy}
    (h1 : List.Forall₂ Enemy.Stays as bs) (h2 : List.Forall₂ Enemy.Stays bs cs) :
    List.Forall₂ Enemy.Stays as cs := by
  induction h1 generalizing cs with
  | nil => cases h2; exact List.Forall₂.nil
  | cons hab _ ih =>
    cases h2 with
    | cons hbc hrest => exact List.Forall₂.cons (stays_trans hab hbc) (ih hrest)

theorem illuminateEnemies_stays (x y : Int) (es : List Enemy) :
    List.Forall₂ Enemy.Stays es (illuminateEnemies x y es) := by
  unfold World.illuminateEnemies
  rw [List.forall₂_map_right_iff]
  apply List.forall₂_same.mpr
  intro e _
  split_ifs
  · exact ⟨rfl, rfl, fun _ => rfl, fun _ => rfl⟩
  · exact stays_refl e

theorem movingEnemy_move_stays (e : Enemy) (w : World) (r : Rand) :
    e.Stays (MovingEnemy.move e w r).1 := by
  unfold MovingEnemy.move
  dsimp only
  split_ifs <;> exact stays_refl e

theorem enemy_move_stays (e : Enemy) (w : World) (r : Rand) : e.Stays (e.move w r).1 := by
  unfold Enemy.move
  cases e.kind
  · exact stays_refl e
  · exact movingEnemy_move_stays e w r

/-- The activation check of `updateEnemies` on one enemy. -/
theorem activation_stays (w : World) (e : Enemy) (p : Player) :
    e.Stays (if (decide (|p.x - e.x| ≤ 3) && decide (|p.y - e.y| ≤ 3) &&
      w.illuminated e.y e.x) = true then e.makeVisible.activate else e) := by
  split_ifs
  · exact ⟨rfl, rfl, fun _ => rfl, fun _ => rfl⟩
  · exact stays_refl e

theorem updateBody_stays (w : World) (e : Enemy) (p : Player) (r : Rand) :
    e.Stays (updateBody w e p r).1 := by
  unfold World.updateBody
  dsimp only
  refine stays_trans (activation_stays w e p) ?_
  split_ifs <;> first | exact enemy_move_stays _ w r | exact stays_refl _

theorem updateLoop_stays (w : World) (es : List Enemy) :
    ∀ (p : Player) (r : Rand), List.Forall₂ Enemy.Stays es (updateLoop w es p r).1 := by
  induction es with
  | nil => intro p r; simp [World.updateLoop]
  | cons e rest ih =>
    intro p r
    simp only [World.updateLoop]
    exact List.Forall₂.cons (updateBody_stays w e p r) (ih _ _)

theorem step_stays (w : World) (op : Op) :
    List.Forall₂ Enemy.Stays w.enemies (w.step op).enemies := by
  cases op with
  | requestMove fromX fromY toX toY isPlayer =>
    simp only [World.step]
    rcases requestMove_cases w fromX fromY toX toY isPlayer with ⟨b, h⟩ | h | ⟨e, _, h⟩ | h
    · rw [h]; exact stays_list_refl _
    · rw [h]; exact stays_list_refl _
    · rw [h]; exact stays_list_refl _
    · rw [h]; exact stays_list_refl _
  | illuminateTile x y =>
    simp only [World.step]
    rcases illuminateTile_cases w x y with h | h
    · rw [h]; exact stays_list_refl _
    · rw [h]; exact illuminateEnemies_stays x y w.enemies
  | updateEnemies r =>
    simp only [World.step, updateEnemies_eq]
    exact updateLoop_stays w w.enemies w.player r

/-- C13: enemy activation is one-way.  After any finite sequence of
`requestMove`, `illuminateTile` and `updateEnemies` calls, with any random
draws, the enemy list has the same length and, place by place, every enemy
whose active flag was true still has it true, and likewise for the visible
flag. -/
theorem activation_one_way (ops : List Op) :
    ∀ w : World, List.Forall₂ Enemy.Stays w.enemies (w.run ops).enemies := by
  induction ops with
  | nil => intro w; exact stays_list_refl _
  | cons op rest ih =>
    intro w
    exact stays_list_trans (step_stays w op) (ih (w.step op))

theorem step_illuminated (w : World) (op : Op) (y x : Int)
    (h : w.illuminated y x = true) : (w.step op).illuminated y x = true := by
  cases op with
  | requestMove fromX fromY toX toY isPlayer =>
    simp only [World.step]
    rcases requestMove_cases w fromX fromY toX toY isPlayer with ⟨b, hr⟩ | hr | ⟨e, _, hr⟩ | hr
    · rw [hr]; exact h
    · rw [hr]; exact h
    · rw [hr]; exact h
    · rw [hr]
      simp only [World.moved, setCell]
      split_ifs
      · rfl
      · exact h
  | illuminateTile tx ty =>
    simp only [World.step]
    rcases illuminateTile_cases w tx ty with hr | hr
    · rw [hr]; exact h
    · rw [hr]
      simp only [setCell]
      split_ifs
      · rfl
      · exact h
  | updateEnemies r =>
    simp only [World.step, updateEnemies_eq]
    exact h

/-- C14: visibility is monotonic.  A cell that is illuminated is still
illuminated after any finite sequence of `requestMove` (player or not),
`illuminateTile` and `updateEnemies` calls, with any random draws. -/
theorem visibility_monotonic (ops : List Op) :
    ∀ (w : World) (y x : Int), w.illuminated y x = true →
      (w.run ops).illuminated y x = true := by
  induction ops with
  | nil => intro w y x h; exact h
  | cons op rest ih =>
    intro w y x h
    exact ih (w.step op) y x (step_illuminated w op y x h)

theorem visibility_monotonic_witness :
    guardedWorld.illuminated 5 5 = true ∧ (guardedWorld.run sampleOps).illuminated 5 5 = true :=
  ⟨by decide, visibility_monotonic sampleOps guardedWorld 5 5 (by decide)⟩

/-! ## The score -/

theorem value_nonneg (c : Collectible) : 0 ≤ c.value := by
  unfold Collectible.value
  split_ifs <;> decide

theorem pendingValue_nonneg (toX toY : Int) (cols : List Collectible) :
    0 ≤ pendingValue toX toY cols := by
  unfold pendingValue
  apply List.sum_nonneg
  intro v hv
  obtain ⟨c, _, hc⟩ := List.mem_map.mp hv
  rw [← hc]
  exact value_nonneg c

theorem pendingValue_cons (toX toY : Int) (col : Collectible) (rest : List Collectible) :
    pendingValue toX toY (col :: rest) =
      (if col.Pending toX toY then col.value else 0) + pendingValue toX toY rest := by
  unfold pendingValue
  by_cases hp : col.Pending toX toY
  · rw [List.filter_cons_of_pos (by simpa using hp), if_pos hp]
    simp
  · rw [List.filter_cons_of_neg (by simpa using hp), if_neg hp]
    simp

theorem collectBody_score (toX toY : Int) (p : Player) (score : Int) (col : Collectible) :
    (collectBody toX toY p score col).2.1 =
      score + (if col.Pending toX toY then col.value else 0) := by
  by_cases hp : col.Pending toX toY
  · rw [if_pos hp]
    obtain ⟨hc, hx, hy⟩ := hp
    unfold World.collectBody Collectible.value
    simp only [hc, hx, hy, Bool.not_false, beq_self_eq_true, Bool.and_self, if_true,
      beq_iff_eq]
    split_ifs <;> simp
  · rw [collectBody_not_pending toX toY p score col hp, if_neg hp]
    simp

theorem collectLoop_score (toX toY : Int) (cols : List Collectible) :
    ∀ (p : Player) (score : Int),
      (collectLoop toX toY p score cols).2.1 = score + pendingValue toX toY cols := by
  induction cols with
  | nil => intro p score; simp [World.collectLoop, pendingValue]
  | cons col rest ih =>
    intro p score
    simp only [World.collectLoop]
    rw [ih, collectBody_score, pendingValue_cons]
    omega

theorem step_score_le (w : World) (op : Op) : w.score ≤ (w.step op).score := by
  cases op with
  | requestMove fromX fromY toX toY isPlayer =>
    simp only [World.step]
    rcases requestMove_cases w fromX fromY toX toY isPlayer with ⟨b, h⟩ | h | ⟨e, _, h⟩ | h
    · rw [h]
    · rw [h]
    · rw [h]
    · rw [h]
      simp only [World.moved]
      rw [collectLoop_score]
      have := pendingValue_nonneg toX toY w.collectibles
      omega
  | illuminateTile x y =>
    simp only [World.step]
    rcases illuminateTile_cases w x y with h | h
    · rw [h]
    · rw [h]
  | updateEnemies r =>
    simp only [World.step, updateEnemies_eq]
    exact le_refl _

theorem run_score_le (ops : List Op) : ∀ w : World, w.score ≤ (w.run ops).score := by
  induction ops with
  | nil => intro w; exact le_refl _
  | cons op rest ih =>
    intro w
    exact le_trans (step_score_le w op) (ih (w.step op))

/-- C15: the score never decreases and changes only on pickup.  Over any
sequence of calls the score does not go down; `illuminateTile`, `updateEnemies`,
a `requestMove` that returns false and a `requestMove` that is not the player's
leave it unchanged; a successful player `requestMove` raises it by the summed
worth of the uncollected collectibles on the target (50 per Coin, 20 per
BatteryPack or OxygenTank), which is not negative and is 0 when nothing
uncollected lies there. -/
theorem score_changes_only_on_pickup :
    (∀ (w : World) (ops : List Op), w.score ≤ (w.run ops).score) ∧
    (∀ (w : World) (x y : Int), (w.illuminateTile x y).score = w.score) ∧
    (∀ (w : World) (r : Rand), (w.updateEnemies r).1.score = w.score) ∧
    (∀ (w : World) (fromX fromY toX toY : Int) (isPlayer : Bool),
      (w.requestMove fromX fromY toX toY isPlayer).1 = false →
      (w.requestMove fromX fromY toX toY isPlayer).2.score = w.score) ∧
    (∀ (w : World) (fromX fromY toX toY : Int),
      (w.requestMove fromX fromY toX toY false).2.score = w.score) ∧
    (∀ (w : World) (fromX fromY toX toY : Int),
      (w.requestMove fromX fromY toX toY true).1 = true →
      (w.requestMove fromX fromY toX toY true).2.score
        = w.score + pendingValue toX toY w.collectibles ∧
      0 ≤ pendingValue toX toY w.collectibles ∧
      ((∀ c ∈ w.collectibles, ¬ c.Pending toX toY) →
        (w.requestMove fromX fromY toX toY true).2.score = w.score)) := by
  refine ⟨fun w ops => run_score_le ops w, ?_, fun w r => rfl, ?_, ?_, ?_⟩
  · intro w x y
    rcases illuminateTile_cases w x y with h | h
    · rw [h]
    · rw [h]
  · intro w fromX fromY toX toY isPlayer hf
    rcases requestMove_cases w fromX fromY toX toY isPlayer with ⟨b, h⟩ | h | ⟨e, _, h⟩ | h
    · rw [h]
    · rw [h]
    · rw [h]
    · rw [h] at hf
      exact absurd hf (by simp)
  · intro w fromX fromY toX toY
    unfold World.requestMove
    cases w.canMoveTo toX toY <;> rfl
  · intro w fromX fromY toX toY ht
    rw [requestMove_true w fromX fromY toX toY ht]
    have hs : (w.moved toX toY).score = w.score + pendingValue toX toY w.collectibles := by
      simp only [World.moved]
      exact collectLoop_score toX toY w.collectibles _ _
    refine ⟨hs, pendingValue_nonneg toX toY w.collectibles, ?_⟩
    intro hnone
    show (w.moved toX toY).score = w.score
    rw [moved_none_pending w toX toY hnone]

theorem score_changes_only_on_pickup_witness :
    ((diverWorld 100 100 [⟨6, 5, COIN, false⟩, ⟨6, 5, OXYGEN_TANK, false⟩]).requestMove
        5 5 6 5 true).1 = true ∧
      pendingValue 6 5 [⟨6, 5, COIN, false⟩, ⟨6, 5, OXYGEN_TANK, false⟩] = 70 ∧
      ((diverWorld 100 100 [⟨6, 5, COIN, false⟩, ⟨6, 5, OXYGEN_TANK, false⟩]).requestMove
        5 5 6 5 true).2.score
        = (diverWorld 100 100 [⟨6, 5, COIN, false⟩, ⟨6, 5, OXYGEN_TANK, false⟩]).score
          + pendingValue 6 5
            (diverWorld 100 100 [⟨6, 5, COIN, false⟩, ⟨6, 5, OXYGEN_TANK, false⟩]).collectibles :=
  ⟨by decide, by decide,
    (score_changes_only_on_pickup.2.2.2.2.2
      (diverWorld 100 100 [⟨6, 5, COIN, false⟩, ⟨6, 5, OXYGEN_TANK, false⟩]) 5 5 6 5
      (by decide)).1⟩

/-! ## Map generation and reset -/

theorem rowFill_apply {α : Type} (f : Int → Int → α) (y : Nat) (xs : List Nat) :
    ∀ (a : Int → Int → α) (yy xx : Int),
      (xs.foldl (fun a2 (x : Nat) => setCell a2 y x (f y x)) a) yy xx =
        if yy = (y : Int) ∧ ∃ x ∈ xs, (x : Int) = xx then f yy xx else a yy xx := by
  induction xs with
  | nil => intro a yy xx; simp
  | cons x rest ih =>
    intro a yy xx
    rw [List.foldl_cons, ih]
    by_cases hy : yy = (y : Int)
    · by_cases hr : ∃ x2 ∈ rest, (x2 : Int) = xx
      · have hc : ∃ x2 ∈ x :: rest, (x2 : Int) = xx := by
          obtain ⟨x2, h2, h3⟩ := hr
          exact ⟨x2, List.mem_cons_of_mem _ h2, h3⟩
        rw [if_pos ⟨hy, hr⟩, if_pos ⟨hy, hc⟩]
      · rw [if_neg (fun h => hr h.2)]
        by_cases hx : xx = (x : Int)
        · have hc : ∃ x2 ∈ x :: rest, (x2 : Int) = xx := ⟨x, List.mem_cons_self _ _, hx.symm⟩
          rw [if_pos ⟨hy, hc⟩]
          simp [setCell, hy, hx]
        · have hc : ¬ ∃ x2 ∈ x :: rest, (x2 : Int) = xx := by
            rintro ⟨x2, h2, h3⟩
            rcases List.mem_cons.mp h2 with h4 | h4
            · exact hx (by rw [← h3, h4])
            · exact hr ⟨x2, h4, h3⟩
          rw [if_neg (fun h => hc h.2)]
          simp [setCell, hx]
    · rw [if_neg (fun h => hy h.1), if_neg (fun h => hy h.1)]
      simp [setCell, hy]

theorem gridFill_apply {α : Type} (f : Int → Int → α) (xs ys : List Nat) :
    ∀ (a : Int → Int → α) (yy xx : Int),
      (ys.foldl (fun a1 (y : Nat) =>
        xs.foldl (fun a2 (x : Nat) => setCell a2 y x (f y x)) a1) a) yy xx =
        if (∃ y ∈ ys, (y : Int) = yy) ∧ ∃ x ∈ xs, (x : Int) = xx then f yy xx else a yy xx := by
  induction ys with
  | nil => intro a yy xx; simp
  | cons y rest ih =>
    intro a yy xx
    rw [List.foldl_cons, ih, rowFill_apply]
    by_cases hx : ∃ x ∈ xs, (x : Int) = xx
    · by_cases hr : ∃ y2 ∈ rest, (y2 : Int) = yy
      · have hc : ∃ y2 ∈ y :: rest, (y2 : Int) = yy := by
          obtain ⟨y2, h2, h3⟩ := hr
          exact ⟨y2, List.mem_cons_of_mem _ h2, h3⟩
        rw [if_pos ⟨hr, hx⟩, if_pos ⟨hc, hx⟩]
      · rw [if_neg (fun h => hr h.1)]
        by_cases hy : yy = (y : Int)
        · have hc : ∃ y2 ∈ y :: rest, (y2 : Int) = yy := ⟨y, List.mem_cons_self _ _, hy.symm⟩
          rw [if_pos ⟨hy, hx⟩, if_pos ⟨hc, hx⟩]
        · have hc : ¬ ∃ y2 ∈ y :: rest, (y2 : Int) = yy := by
            rintro ⟨y2, h2, h3⟩
            rcases List.mem_cons.mp h2 with h4 | h4
            · exact hy (by rw [← h3, h4])
            · exact hr ⟨y2, h4, h3⟩
          rw [if_neg (fun h => hy h.1), if_neg (fun h => hc h.1)]
    · rw [if_neg (fun h => hx h.2), if_neg (fun h => hx h.2), if_neg (fun h => hx h.2)]

theorem mem_range_cast (n : Nat) (z : Int) :
    (∃ k ∈ List.range n, (k : Int) = z) ↔ (0 ≤ z ∧ z < n) := by
  constructor
  · rintro ⟨k, hk, hz⟩
    have := List.mem_range.mp hk
    omega
  · rintro ⟨h0, h1⟩
    refine ⟨z.toNat, List.mem_range.mpr (by omega), by omega⟩

/-- The grid after the nested assignment loops: every cell of the array holds
the assigned value, every other index is untouched. -/
theorem fillGrid_apply {α : Type} (f : Int → Int → α) (a : Int → Int → α) (y x : Int) :
    fillGrid f a y x = if InBounds x y then f y x else a y x := by
  unfold fillGrid
  rw [gridFill_apply]
  have hy := mem_range_cast MAP_HEIGHT.toNat y
  have hx := mem_range_cast MAP_WIDTH.toNat x
  have hc : (MAP_HEIGHT.toNat : Int) = 20 ∧ (MAP_WIDTH.toNat : Int) = 20 := by decide
  rw [hc.1] at hy
  rw [hc.2] at hx
  by_cases h : InBounds x y
  · have h2 := h
    unfold InBounds at h2
    rw [if_pos h, if_pos ⟨hy.mpr ⟨h2.2.2.1, h2.2.2.2⟩, hx.mpr ⟨h2.1, h2.2.1⟩⟩]
  · rw [if_neg h, if_neg]
    rintro ⟨h3, h4⟩
    apply h
    have h5 := hy.mp h3
    have h6 := hx.mp h4
    exact ⟨h6.1, h6.2, h5.1, h5.2⟩

theorem obstacle_coord (k : Nat) :
    2 ≤ 2 + (k : Int) % (MAP_WIDTH - 4) ∧ 2 + (k : Int) % (MAP_WIDTH - 4) ≤ 17 ∧
    2 ≤ 2 + (k : Int) % (MAP_HEIGHT - 4) ∧ 2 + (k : Int) % (MAP_HEIGHT - 4) ≤ 17 := by
  simp only [MAP_WIDTH, MAP_HEIGHT]
  omega

theorem spawn_coord (k : Nat) :
    1 ≤ 1 + (k : Int) % (MAP_WIDTH - 2) ∧ 1 + (k : Int) % (MAP_WIDTH - 2) ≤ 18 ∧
    1 ≤ 1 + (k : Int) % (MAP_HEIGHT - 2) ∧ 1 + (k : Int) % (MAP_HEIGHT - 2) ≤ 18 := by
  simp only [MAP_WIDTH, MAP_HEIGHT]
  omega

/-- The obstacle loop writes only inside the obstacle square. -/
theorem obstacleLoop_outside (n : Nat) (y x : Int) (h : ¬ InObstacleSquare x y) :
    ∀ (m : Int → Int → Char) (r : Rand), (obstacleLoop n m r).1 y x = m y x := by
  induction n with
  | zero => intro m r; rfl
  | succ n ih =>
    intro m r
    simp only [World.obstacleLoop]
    rw [ih]
    unfold setCell
    rw [if_neg]
    rintro ⟨hy, hx⟩
    apply h
    have h1 := obstacle_coord (r.next.1)
    have h2 := obstacle_coord (r.next.2.next.1)
    unfold InObstacleSquare
    rw [hy, hx]
    exact ⟨h1.1, h1.2.1, h2.2.2.1, h2.2.2.2⟩

/-- What the obstacle loop leaves in a cell depends on the draws and on what
the cell held before, not on the rest of the map. -/
theorem obstacleLoop_congr (n : Nat) (y x : Int) :
    ∀ (m1 m2 : Int → Int → Char) (r : Rand), m1 y x = m2 y x →
      (obstacleLoop n m1 r).1 y x = (obstacleLoop n m2 r).1 y x := by
  induction n with
  | zero => intro m1 m2 r h; exact h
  | succ n ih =>
    intro m1 m2 r h
    simp only [World.obstacleLoop]
    apply ih
    unfold setCell
    split_ifs
    · rfl
    · exact h

theorem enemy_guard (map : Int → Int → Char) (x y : Int)
    (h : (map y x == 'o' && !(x == 5 && y == 5)) = true) :
    map y x = 'o' ∧ ¬ (x = 5 ∧ y = 5) := by
  rw [Bool.and_eq_true] at h
  obtain ⟨h1, h2⟩ := h
  refine ⟨by simpa using h1, ?_⟩
  rintro ⟨hx, hy⟩
  rw [hx, hy] at h2
  exact absurd h2 (by decide)

/-- Every enemy of the list after the enemy loop was in the list before or was
constructed, inactive and invisible, on an open cell of the obstacle square
other than (5,5). -/
theorem enemyLoop_forall (map : Int → Int → Char) (P : Enemy → Prop)
    (hnew : ∀ x y : Int, InObstacleSquare x y → map y x = 'o' → ¬ (x = 5 ∧ y = 5) →
      P (StationaryEnemy.new x y) ∧ P (MovingEnemy.new x y)) (n : Nat) :
    ∀ (es : List Enemy) (r : Rand), (∀ e ∈ es, P e) →
      ∀ e ∈ (enemyLoop map n es r).1, P e := by
  induction n with
  | zero => intro es r h; exact h
  | succ n ih =>
    intro es r h
    have h1 := obstacle_coord (r.next.1)
    have h2 := obstacle_coord (r.next.2.next.1)
    simp only [World.enemyLoop]
    split_ifs with hc hk
    · have hc2 := enemy_guard map _ _ hc
      apply ih
      intro e he
      rcases List.mem_append.mp he with he | he
      · exact h e he
      · rw [List.mem_singleton.mp he]
        exact (hnew _ _ ⟨h1.1, h1.2.1, h2.2.2.1, h2.2.2.2⟩ hc2.1 hc2.2).1
    · have hc2 := enemy_guard map _ _ hc
      apply ih
      intro e he
      rcases List.mem_append.mp he with he | he
      · exact h e he
      · rw [List.mem_singleton.mp he]
        exact (hnew _ _ ⟨h1.1, h1.2.1, h2.2.2.1, h2.2.2.2⟩ hc2.1 hc2.2).2
    · exact ih es _ h

/-- Every collectible of the list after one spawn loop was in the list before
or was created uncollected on an open cell with `1 ≤ x, y ≤ 18`. -/
theorem spawnLoop_forall (type : Char) (lo span : Nat) (map : Int → Int → Char)
    (P : Collectible → Prop)
    (hnew : ∀ x y : Int, 1 ≤ x → x ≤ 18 → 1 ≤ y → y ≤ 18 → map y x = 'o' →
      P ⟨x, y, type, false⟩) (fuel : Nat) :
    ∀ (i : Nat) (cols : List Collectible) (r : Rand), (∀ c ∈ cols, P c) →
      ∀ c ∈ (spawnLoop type lo span map fuel i cols r).1, P c := by
  induction fuel with
  | zero => intro i cols r h; exact h
  | succ fuel ih =>
    intro i cols r h
    have h1 := spawn_coord (r.next.2.next.1)
    have h2 := spawn_coord (r.next.2.next.2.next.1)
    simp only [World.spawnLoop]
    split_ifs with hi hc
    · apply ih
      intro c hcm
      rcases List.mem_append.mp hcm with hcm | hcm
      · exact h c hcm
      · rw [List.mem_singleton.mp hcm]
        exact hnew _ _ h1.1 h1.2.1 h2.2.2.1 h2.2.2.2 (by simpa using hc)
    · exact ih _ _ _ h
    · exact h

theorem spawnCollectibles_forall (map : Int → Int → Char) (P : Collectible → Prop)
    (hnew : ∀ (x y : Int) (type : Char), 1 ≤ x → x ≤ 18 → 1 ≤ y → y ≤ 18 → map y x = 'o' →
      P ⟨x, y, type, false⟩) (cols : List Collectible) (r : Rand)
    (h : ∀ c ∈ cols, P c) : ∀ c ∈ (spawnCollectibles map cols r).1, P c := by
  unfold World.spawnCollectibles
  dsimp only
  apply spawnLoop_forall OXYGEN_TANK 3 3 map P (fun x y => hnew x y OXYGEN_TANK)
  apply spawnLoop_forall BATTERY_PACK 3 3 map P (fun x y => hnew x y BATTERY_PACK)
  apply spawnLoop_forall COIN 10 6 map P (fun x y => hnew x y COIN)
  exact h

/-- The bound on the evaluations of the loop condition is never the reason a
spawn loop stops: one more evaluation allowed gives the same result. -/
theorem spawnLoop_fuel (type : Char) (lo span : Nat) (map : Int → Int → Char)
    (hspan : 0 < span) (fuel : Nat) :
    ∀ (i : Nat) (cols : List Collectible) (r : Rand), 0 < fuel → lo + span ≤ fuel + i →
      spawnLoop type lo span map (fuel + 1) i cols r
        = spawnLoop type lo span map fuel i cols r := by
  induction fuel with
  | zero => intro i cols r h; exact absurd h (by decide)
  | succ fuel ih =>
    intro i cols r _ hb
    have hmod : r.next.1 % span < span := Nat.mod_lt _ hspan
    rw [World.spawnLoop]
    conv_rhs => rw [World.spawnLoop]
    dsimp only
    by_cases hi : i < lo + r.next.1 % span
    · have hf : 0 < fuel := by omega
      rw [if_pos hi, if_pos hi]
      split_ifs
      · exact ih _ _ _ hf (by omega)
      · exact ih _ _ _ hf (by omega)
    · rw [if_neg hi, if_neg hi]

/-- C16: after `reset` on the generated-map fallback, for any world before and
any random draws, the player stands on (5,5) with health, oxygen and battery
100, the score is 0, no collectible is flagged collected, every enemy is
inactive and invisible, and of the cells of the grid exactly (5,5) is
revealed. -/
theorem reset_restores_initial_state (w : World) (r : Rand) :
    (w.reset r).1.player.x = 5 ∧ (w.reset r).1.player.y = 5 ∧
    (w.reset r).1.player.health = 100 ∧ (w.reset r).1.player.oxygen = 100 ∧
    (w.reset r).1.player.battery = 100 ∧
    (w.reset r).1.score = 0 ∧
    (∀ c ∈ (w.reset r).1.collectibles, c.collected = false) ∧
    (∀ e ∈ (w.reset r).1.enemies, e.active = false ∧ e.visible = false) ∧
    (∀ x y : Int, InBounds x y →
      ((w.reset r).1.illuminated y x = true ↔ (x = 5 ∧ y = 5))) := by
  refine ⟨rfl, rfl, rfl, rfl, rfl, rfl, ?_, ?_, ?_⟩
  · simp only [World.reset, World.loadMap, World.createDefaultMap]
    apply spawnCollectibles_forall _ (fun c => c.collected = false)
    · intro x y type _ _ _ _ _
      rfl
    · intro c hc
      cases hc
  · simp only [World.reset, World.loadMap, World.createDefaultMap]
    apply enemyLoop_forall _ (fun e => e.active = false ∧ e.visible = false)
    · intro x y _ _ _
      exact ⟨⟨rfl, rfl⟩, ⟨rfl, rfl⟩⟩
    · intro e he
      cases he
  · intro x y hb
    simp only [World.reset, World.loadMap, World.createDefaultMap, setCell]
    by_cases h5 : y = 5 ∧ x = 5
    · rw [if_pos h5]
      simp [h5.1, h5.2]
    · rw [if_neg h5, fillGrid_apply, if_pos hb]
      constructor
      · intro hf
        exact absurd hf (by decide)
      · intro hxy
        exact absurd ⟨hxy.2, hxy.1⟩ h5

theorem reset_restores_initial_state_witness :
    InBounds 6 5 ∧
      (((guardedWorld.illuminateTile 6 5).reset (fun _ => 0)).1.illuminated 5 6 = true
        ↔ ((6 : Int) = 5 ∧ (5 : Int) = 5)) :=
  ⟨by decide,
    (reset_restores_initial_state (guardedWorld.illuminateTile 6 5) (fun _ => 0)).2.2.2.2.2.2.2.2
      6 5 (by decide)⟩

theorem createDefaultMap_map (w : World) (r : Rand) :
    (w.createDefaultMap r).1.map =
      (obstacleLoop 25
        (fillGrid
          (fun y x => if y = 0 ∨ y = MAP_HEIGHT - 1 ∨ x = 0 ∨ x = MAP_WIDTH - 1 then 'x' else 'o')
          w.map) r).1 := rfl

theorem reset_map (w : World) (r : Rand) :
    (w.reset r).1.map =
      (obstacleLoop 25
        (fillGrid
          (fun y x => if y = 0 ∨ y = MAP_HEIGHT - 1 ∨ x = 0 ∨ x = MAP_WIDTH - 1 then 'x' else 'o')
          w.map) r).1 := rfl

/-- On the cells of the grid the generated map depends on the draws only, not
on the map before. -/
theorem generated_map_congr (m1 m2 : Int → Int → Char) (r : Rand) (x y : Int)
    (hb : InBounds x y) :
    (obstacleLoop 25
      (fillGrid
        (fun y x => if y = 0 ∨ y = MAP_HEIGHT - 1 ∨ x = 0 ∨ x = MAP_WIDTH - 1 then 'x' else 'o')
        m1) r).1 y x =
    (obstacleLoop 25
      (fillGrid
        (fun y x => if y = 0 ∨ y = MAP_HEIGHT - 1 ∨ x = 0 ∨ x = MAP_WIDTH - 1 then 'x' else 'o')
        m2) r).1 y x := by
  apply obstacleLoop_congr
  rw [fillGrid_apply, fillGrid_apply, if_pos hb, if_pos hb]

set_option maxRecDepth 100000 in
/-- C17 as stated fails: in the world generated with every draw 0 the cell (2,2)
is a Wall and (3,3) is open; after `reset` with every draw 1 the cell (2,2) is
open and (3,3) is a Wall. -/
theorem reset_redraws_obstacles :
    builtWorld.map 2 2 = 'x' ∧ (builtWorld.reset (fun _ => 1)).1.map 2 2 = 'o' ∧
      builtWorld.map 3 3 = 'o' ∧ (builtWorld.reset (fun _ => 1)).1.map 3 3 = 'x' := by
  decide

/-- C17 (amended): `reset` on the generated-map fallback builds the wall layout
anew from the draws it consumes.  For a world generated by `createDefaultMap`
and any draws, a cell of the grid outside the obstacle square `2 ≤ x, y ≤ 17`
holds after `reset` what it held before, and every cell of the grid holds after
`reset` what `createDefaultMap` generates from the draws of the `reset`. -/
theorem reset_layout (w0 : World) (r0 r : Rand) (x y : Int) (hb : InBounds x y) :
    (¬ InObstacleSquare x y →
      (((w0.createDefaultMap r0).1).reset r).1.map y x = (w0.createDefaultMap r0).1.map y x) ∧
    (((w0.createDefaultMap r0).1).reset r).1.map y x = (w0.createDefaultMap r).1.map y x := by
  refine ⟨?_, ?_⟩
  · intro hout
    rw [reset_map, createDefaultMap_map, obstacleLoop_outside 25 y x hout,
      obstacleLoop_outside 25 y x hout, fillGrid_apply, fillGrid_apply, if_pos hb, if_pos hb]
  · rw [reset_map, createDefaultMap_map]
    exact generated_map_congr _ _ r x y hb

theorem reset_layout_witness :
    InBounds 0 7 ∧ ¬ InObstacleSquare 0 7 ∧
      (builtWorld.reset (fun _ => 1)).1.map 7 0 = builtWorld.map 7 0 :=
  ⟨by decide, by decide,
    (reset_layout (freshWorld (fun _ _ => ' ')) (fun _ => 0) (fun _ => 1) 0 7 (by decide)).1
      (by decide)⟩

/-! ## One turn of the main loop -/

theorem dispatch_unknown (w : World) (input : Char) (r : Rand)
    (h : input.toLower ∉ knownKeys) : dispatch w input r = (w, r) := by
  unfold knownKeys at h
  simp only [List.mem_cons, List.mem_singleton, List.not_mem_nil, not_or, or_false] at h
  obtain ⟨h1, h2, h3, h4, h5, h6, h7, h8, h9, _⟩ := h
  unfold dispatch
  dsimp only
  rw [if_neg h1, if_neg h2, if_neg h3, if_neg h4, if_neg h5, if_neg h6, if_neg h7, if_neg h8,
    if_neg h9]

/-- C18 as stated fails: the key `z` has no case in the `switch`, but the enemy
update of the turn still runs: the moving enemy on (6,5) steps onto the player
and the health drops from 100 to 85. -/
theorem unknown_key_still_updates_enemies :
    'z'.toLower ∉ knownKeys ∧
      stalkedWorld.player.health = 100 ∧
      (turn stalkedWorld 'z' stepLeftDraws).1.player.health = 85 ∧
      (stalkedWorld.enemies.map Enemy.x) = [6] ∧
      ((turn stalkedWorld 'z' stepLeftDraws).1.enemies.map Enemy.x) = [5] := by
  decide

/-- C18 (amended): a key with no case in the `switch` is ignored by the
`switch`, and the turn then consists of the enemy update alone: the world after
the turn is the world after `updateEnemies`, in which the map, the visibility
grid, the score, the collectibles and the player's position, oxygen and battery
are unchanged; when the world has no enemy the whole world is unchanged, as it
is when no key was read. -/
theorem unknown_key_turn (w : World) (input : Char) (r : Rand)
    (hkey : input.toLower ∉ knownKeys) :
    (input ≠ '\x00' → turn w input r = w.updateEnemies r) ∧
    (input = '\x00' → turn w input r = (w, r)) ∧
    (turn w input r).1.map = w.map ∧
    (turn w input r).1.illuminated = w.illuminated ∧
    (turn w input r).1.score = w.score ∧
    (turn w input r).1.collectibles = w.collectibles ∧
    (turn w input r).1.player.x = w.player.x ∧
    (turn w input r).1.player.y = w.player.y ∧
    (turn w input r).1.player.oxygen = w.player.oxygen ∧
    (turn w input r).1.player.battery = w.player.battery ∧
    (w.enemies = [] → (turn w input r).1 = w) := by
  have hd := dispatch_unknown w input r hkey
  have hfr := updateLoop_player_frame w w.enemies w.player r
  by_cases h0 : input = '\x00'
  · have ht : turn w input r = (w, r) := by
      unfold turn
      rw [if_neg (fun hne => hne h0)]
    rw [ht]
    exact ⟨fun hne => absurd h0 hne, fun _ => rfl, rfl, rfl, rfl, rfl, rfl, rfl, rfl, rfl,
      fun _ => rfl⟩
  · have ht : turn w input r = w.updateEnemies r := by
      unfold turn
      rw [if_pos h0]
      dsimp only
      rw [hd]
    rw [ht, updateEnemies_eq]
    refine ⟨fun _ => rfl, fun he => absurd he h0, rfl, rfl, rfl, rfl, hfr.1, hfr.2.1,
      hfr.2.2.1, hfr.2.2.2.1, ?_⟩
    intro hnil
    cases w with
    | mk m il p es sc cs =>
      simp only at hnil
      subst hnil
      rfl

theorem unknown_key_turn_witness :
    'z'.toLower ∉ knownKeys ∧ 'z' ≠ '\x00' ∧
      turn stalkedWorld 'z' stepLeftDraws = stalkedWorld.updateEnemies stepLeftDraws :=
  ⟨by decide, by decide,
    (unknown_key_turn stalkedWorld 'z' stepLeftDraws (by decide)).1 (by decide)⟩

/-! ## The oxygen and battery scenarios -/

theorem collectBody_oxygen_at (toX toY : Int) (p : Player) (score : Int) (col : Collectible)
    (h : col.Pending toX toY → col.type ≠ OXYGEN_TANK) :
    (collectBody toX toY p score col).1.oxygen = p.oxygen := by
  by_cases hp : col.Pending toX toY
  · have ht := h hp
    obtain ⟨hc, hx, hy⟩ := hp
    unfold World.collectBody
    simp only [hc, hx, hy, Bool.not_false, beq_self_eq_true, Bool.and_self, if_true]
    split_ifs with h1 h2 h3
    · rfl
    · rfl
    · exact absurd (by simpa using h3) ht
    · rfl
  · rw [collectBody_not_pending toX toY p score col hp]

theorem collectLoop_oxygen_at (toX toY : Int) (cols : List Collectible) :
    ∀ (p : Player) (score : Int),
      (∀ c ∈ cols, c.Pending toX toY → c.type ≠ OXYGEN_TANK) →
      (collectLoop toX toY p score cols).1.oxygen = p.oxygen := by
  induction cols with
  | nil => intro p score _; simp [World.collectLoop]
  | cons col rest ih =>
    intro p score h
    simp only [World.collectLoop]
    rw [ih _ _ (fun c hc => h c (List.mem_cons_of_mem _ hc))]
    exact collectBody_oxygen_at toX toY p score col (h col (List.mem_cons_self _ _))

/-- One round with a move onto an open, enemy-free tile without an uncollected
OxygenTank charges exactly the 2 oxygen of the move. -/
theorem moveRound_oxygen (w : World) (m : MoveRound)
    (hb : InBounds m.toX m.toY) (hopen : w.map m.toY m.toX ≠ 'x')
    (hfree : ∀ e ∈ w.enemies, ¬ (e.x = m.toX ∧ e.y = m.toY))
    (htank : ∀ c ∈ w.collectibles, c.Pending m.toX m.toY → c.type ≠ OXYGEN_TANK) :
    (moveRound w m).player.oxygen = max (w.player.oxygen - 2) 0 := by
  unfold moveRound
  rw [requestMove_free w _ _ m.toX m.toY hb hopen hfree, updateEnemies_eq]
  dsimp only
  rw [(updateLoop_player_frame _ _ _ _).2.2.1]
  simp only [World.moved]
  rw [collectLoop_oxygen_at m.toX m.toY w.collectibles _ _ htank]
  exact Player.consumeOxygen_oxygen _ 2

theorem moveRounds_oxygen_nonneg (ms : List MoveRound) :
    ∀ w : World, PlainMoves w ms → 0 ≤ w.player.oxygen →
      (moveRounds w ms).player.oxygen = max (w.player.oxygen - 2 * (ms.length : Int)) 0 := by
  induction ms with
  | nil =>
    intro w _ h0
    simp only [moveRounds, List.foldl_nil, List.length_nil]
    omega
  | cons m rest ih =>
    intro w hp h0
    obtain ⟨⟨hb, hopen, hfree, htank⟩, hrest⟩ := hp
    have h1 := moveRound_oxygen w m hb hopen hfree htank
    have h2 := ih (moveRound w m) hrest (by rw [h1]; omega)
    simp only [moveRounds, List.foldl_cons, List.length_cons] at h2 ⊢
    rw [h2, h1]
    push_cast
    omega

theorem moveRounds_oxygen (ms : List MoveRound) (w : World) (hp : PlainMoves w ms)
    (h : 0 ≤ w.player.oxygen ∨ ms ≠ []) :
    (moveRounds w ms).player.oxygen = max (w.player.oxygen - 2 * (ms.length : Int)) 0 := by
  rcases h with h | h
  · exact moveRounds_oxygen_nonneg ms w hp h
  · cases ms with
    | nil => exact absurd rfl h
    | cons m rest =>
      obtain ⟨⟨hb, hopen, hfree, htank⟩, hrest⟩ := hp
      have h1 := moveRound_oxygen w m hb hopen hfree htank
      have h2 := moveRounds_oxygen_nonneg rest (moveRound w m) hrest (by rw [h1]; omega)
      simp only [moveRounds, List.foldl_cons, List.length_cons] at h2 ⊢
      rw [h2, h1]
      push_cast
      omega

/-- A player move onto a Wall or out of bounds, unfolded. -/
theorem requestMove_blocked (w : World) (fromX fromY toX toY : Int)
    (h : ¬ InBounds toX toY ∨ w.map toY toX = 'x') :
    w.requestMove fromX fromY toX toY true =
      (false, { w with player := w.player.consumeOxygen 2 }) := by
  have hc := w.canMoveTo_eq_false toX toY h
  simp only [World.requestMove, hc, Bool.not_false, if_true]

/-- C19: the oxygen scenario.  Any `n` rounds of a successful player move
(onto an open, enemy-free tile without an uncollected OxygenTank) followed by
`updateEnemies` take the oxygen from `o` to `max (o - 2n) 0`, for `o ≥ 0` or
`n ≥ 1`; from the player on (5,5) with oxygen 100, four such rounds leave
oxygen 92, and a fifth `requestMove` into a Wall or out of bounds then returns
false, leaves oxygen 90 and leaves the position unchanged. -/
theorem oxygen_scenario :
    (∀ (w : World) (ms : List MoveRound), PlainMoves w ms →
      (0 ≤ w.player.oxygen ∨ ms ≠ []) →
      (moveRounds w ms).player.oxygen = max (w.player.oxygen - 2 * (ms.length : Int)) 0) ∧
    (∀ (w : World) (ms : List MoveRound),
      w.player.x = 5 → w.player.y = 5 → w.player.oxygen = 100 →
      ms.length = 4 → PlainMoves w ms →
      (moveRounds w ms).player.oxygen = 92 ∧
      ∀ fromX fromY toX toY : Int,
        (¬ InBounds toX toY ∨ (moveRounds w ms).map toY toX = 'x') →
        ((moveRounds w ms).requestMove fromX fromY toX toY true).1 = false ∧
        ((moveRounds w ms).requestMove fromX fromY toX toY true).2.player.oxygen = 90 ∧
        ((moveRounds w ms).requestMove fromX fromY toX toY true).2.player.x
          = (moveRounds w ms).player.x ∧
        ((moveRounds w ms).requestMove fromX fromY toX toY true).2.player.y
          = (moveRounds w ms).player.y) := by
  refine ⟨fun w ms hp h => moveRounds_oxygen ms w hp h, ?_⟩
  intro w ms _ _ ho hlen hp
  have h4 := moveRounds_oxygen ms w hp (Or.inl (by omega))
  rw [ho, hlen] at h4
  have h92 : (moveRounds w ms).player.oxygen = 92 := by
    rw [h4]
    decide
  refine ⟨h92, ?_⟩
  intro fromX fromY toX toY hwall
  rw [requestMove_blocked _ fromX fromY toX toY hwall]
  refine ⟨rfl, ?_, rfl, rfl⟩
  show ((moveRounds w ms).player.consumeOxygen 2).oxygen = 90
  rw [Player.consumeOxygen_oxygen, h92]
  decide

theorem oxygen_scenario_witness :
    PlainMoves (diverWorld 100 100 []) fourMoves ∧
      (moveRounds (diverWorld 100 100 []) fourMoves).player.oxygen = 92 ∧
      (moveRounds (diverWorld 100 100 []) fourMoves).map 7 0 = 'x' ∧
      ((moveRounds (diverWorld 100 100 []) fourMoves).requestMove 7 7 0 7 true).2.player.oxygen
        = 90 :=
  ⟨by decide,
    (oxygen_scenario.2 (diverWorld 100 100 []) fourMoves rfl rfl rfl rfl (by decide)).1,
    by decide,
    ((oxygen_scenario.2 (diverWorld 100 100 []) fourMoves rfl rfl rfl rfl (by decide)).2
      7 7 0 7 (Or.inr (by decide))).2.1⟩

/-- One round with an in-bounds illumination and at least 5 battery lowers the
battery by exactly 5. -/
theorem lightRound_battery (w : World) (l : LightRound)
    (hb : InBounds l.x l.y) (h5 : 5 ≤ w.player.battery) :
    (lightRound w l).player.battery = w.player.battery - 5 := by
  unfold lightRound
  rw [updateEnemies_eq]
  dsimp only
  rw [(updateLoop_player_frame _ _ _ _).2.2.2.1]
  rcases illuminateTile_cases w l.x l.y with h | h
  · have hno : ¬ (w.player.battery < 5 ∨ ¬ InBounds l.x l.y) := by
      rintro (hlt | hnb)
      · omega
      · exact hnb hb
    have hw : w.illuminateTile l.x l.y =
        { w with player := { w.player with battery := w.player.battery - 5 },
                 illuminated := setCell w.illuminated l.y l.x true,
                 enemies := illuminateEnemies l.x l.y w.enemies } := by
      unfold World.illuminateTile
      have hin : l.x ≥ 0 ∧ l.x < MAP_WIDTH ∧ l.y ≥ 0 ∧ l.y < MAP_HEIGHT := by
        unfold InBounds at hb
        simp only [MAP_WIDTH, MAP_HEIGHT]
        omega
      have hu : w.player.useBattery =
          (true, { w.player with battery := w.player.battery - 5 }) := by
        simp [Player.useBattery, BATTERY_COST, h5]
      simp only [hin, hu]
      simp
    rw [hw]
  · rw [h]

theorem lightRounds_battery (ls : List LightRound) :
    ∀ w : World, (∀ l ∈ ls, InBounds l.x l.y) → 5 * (ls.length : Int) ≤ w.player.battery →
      (lightRounds w ls).player.battery = w.player.battery - 5 * (ls.length : Int) := by
  induction ls with
  | nil =>
    intro w _ _
    simp only [lightRounds, List.foldl_nil, List.length_nil]
    omega
  | cons l rest ih =>
    intro w hb hn
    simp only [List.length_cons] at hn
    push_cast at hn
    have h1 := lightRound_battery w l (hb l (List.mem_cons_self _ _)) (by omega)
    have h2 := ih (lightRound w l) (fun l2 hl => hb l2 (List.mem_cons_of_mem _ hl))
      (by rw [h1]; omega)
    simp only [lightRounds, List.foldl_cons, List.length_cons] at h2 ⊢
    rw [h2, h1]
    push_cast
    omega

/-- An `illuminateTile` with less than 5 battery, unfolded. -/
theorem illuminateTile_low_battery (w : World) (x y : Int) (h : w.player.battery < 5) :
    w.illuminateTile x y = w := by
  unfold World.illuminateTile
  have hu : w.player.useBattery = (false, w.player) := by
    unfold Player.useBattery
    simp only [BATTERY_COST]
    rw [if_neg (by omega)]
  by_cases hin : x ≥ 0 ∧ x < MAP_WIDTH ∧ y ≥ 0 ∧ y < MAP_HEIGHT
  · simp only [if_pos hin, hu]
    rfl
  · simp only [if_neg hin]

/-- C20: the battery scenario.  From battery 100, `n ≤ 20` rounds of an
`illuminateTile` on an in-bounds tile followed by `updateEnemies` leave battery
`100 - 5n`, so 75 after five and 0 after twenty; after twenty a further
`illuminateTile` leaves the whole world unchanged, the battery at 0 and every
cell as it was; and an `illuminateTile` called with battery 3 leaves the world
unchanged, the battery at 3. -/
theorem battery_scenario :
    (∀ (w : World) (ls : List LightRound), w.player.battery = 100 →
      (∀ l ∈ ls, InBounds l.x l.y) → ls.length ≤ 20 →
      (lightRounds w ls).player.battery = 100 - 5 * (ls.length : Int)) ∧
    (∀ (w : World) (ls : List LightRound), w.player.battery = 100 →
      (∀ l ∈ ls, InBounds l.x l.y) → ls.length = 5 →
      (lightRounds w ls).player.battery = 75) ∧
    (∀ (w : World) (ls : List LightRound) (x y : Int), w.player.battery = 100 →
      (∀ l ∈ ls, InBounds l.x l.y) → ls.length = 20 →
      (lightRounds w ls).player.battery = 0 ∧
      (lightRounds w ls).illuminateTile x y = lightRounds w ls ∧
      ((lightRounds w ls).illuminateTile x y).player.battery = 0 ∧
      ((lightRounds w ls).illuminateTile x y).illuminated = (lightRounds w ls).illuminated) ∧
    (∀ (w : World) (x y : Int), w.player.battery = 3 →
      w.illuminateTile x y = w ∧ (w.illuminateTile x y).player.battery = 3) := by
  have hgen : ∀ (w : World) (ls : List LightRound), w.player.battery = 100 →
      (∀ l ∈ ls, InBounds l.x l.y) → ls.length ≤ 20 →
      (lightRounds w ls).player.battery = 100 - 5 * (ls.length : Int) := by
    intro w ls hw hb hn
    have h := lightRounds_battery ls w hb (by rw [hw]; omega)
    rw [h, hw]
  refine ⟨hgen, ?_, ?_, ?_⟩
  · intro w ls hw hb hn
    rw [hgen w ls hw hb (by omega), hn]
    decide
  · intro w ls x y hw hb hn
    have h0 : (lightRounds w ls).player.battery = 0 := by
      rw [hgen w ls hw hb (by omega), hn]
      decide
    have hnoop := illuminateTile_low_battery (lightRounds w ls) x y (by rw [h0]; decide)
    rw [hnoop]
    exact ⟨h0, rfl, h0, rfl⟩
  · intro w x y hw
    have hnoop := illuminateTile_low_battery w x y (by rw [hw]; decide)
    rw [hnoop]
    exact ⟨rfl, hw⟩

theorem battery_scenario_witness :
    guardedWorld.player.battery = 100 ∧ (∀ l ∈ fiveLights, InBounds l.x l.y) ∧
      (lightRounds guardedWorld fiveLights).player.battery = 75 :=
  ⟨by decide, by decide,
    battery_scenario.2.1 guardedWorld fiveLights (by decide) (by decide) rfl⟩

/-- Allowing more evaluations of the loop condition than `lo + span` never
changes what a spawn loop started at 0 returns. -/
theorem spawnLoop_enough (type : Char) (lo span : Nat) (map : Int → Int → Char)
    (hspan : 0 < span) (cols : List Collectible) (r : Rand) (extra : Nat) :
    spawnLoop type lo span map (lo + span + extra) 0 cols r
      = spawnLoop type lo span map (lo + span) 0 cols r := by
  induction extra with
  | zero => rfl
  | succ k ih =>
    rw [← ih]
    exact spawnLoop_fuel type lo span map hspan (lo + span + k) 0 cols r (by omega) (by omega)

/-! ## Further instances on sample worlds -/

theorem useBattery_spec_witness :
    (5 : Int) ≤ (Player.new 5 5).battery ∧
      (Player.new 5 5).useBattery.1 = true ∧
      (Player.new 5 5).useBattery.2.battery = (Player.new 5 5).battery - 5 :=
  ⟨by decide, (useBattery_spec (Player.new 5 5)).1 (by decide)⟩

theorem isDead_iff_zero_witness :
    (0 : Int) ≤ deadWorld.player.health ∧ (0 : Int) ≤ deadWorld.player.oxygen ∧
      (deadWorld.player.isDead = true ↔
        (deadWorld.player.health = 0 ∨ deadWorld.player.oxygen = 0)) :=
  ⟨by decide, by decide, isDead_iff_zero.1 deadWorld.player (by decide) (by decide)⟩

/-! ## The enemy step -/

theorem canMoveTo_iff (w : World) (x y : Int) : w.canMoveTo x y = true ↔ w.Walkable x y := by
  unfold World.Walkable
  constructor
  · intro h
    by_cases hb : InBounds x y
    · refine ⟨hb, ?_⟩
      intro hx
      rw [w.canMoveTo_eq_false x y (Or.inr hx)] at h
      exact Bool.false_ne_true h
    · rw [w.canMoveTo_eq_false x y (Or.inl hb)] at h
      exact absurd h Bool.false_ne_true
  · rintro ⟨hb, hx⟩
    exact w.canMoveTo_eq_true x y hb hx

theorem movingEnemy_move_idle (e : Enemy) (w : World) (r : Rand)
    (h : e.active = false ∨ r 0 % 3 = 0) : (MovingEnemy.move e w r).1 = e := by
  unfold MovingEnemy.move
  by_cases ha : e.active = true
  · have h3 : r 0 % 3 = 0 := by
      rcases h with h | h
      · rw [ha] at h
        exact absurd h (by decide)
      · exact h
    simp [ha, Rand.next, h3]
  · simp [ha]

/-- An active moving enemy that does not skip its move goes to the neighbour
the second draw selects when `canMoveTo` accepts it, and stays otherwise. -/
theorem movingEnemy_move_eq (e : Enemy) (w : World) (r : Rand)
    (ha : e.active = true) (h3 : r 0 % 3 ≠ 0) :
    (MovingEnemy.move e w r).1 =
      if w.canMoveTo (neighbour (r 1 % 4) e.x e.y).1 (neighbour (r 1 % 4) e.x e.y).2 = true then
        { e with x := (neighbour (r 1 % 4) e.x e.y).1, y := (neighbour (r 1 % 4) e.x e.y).2 }
      else e := by
  unfold MovingEnemy.move
  have hd : r 1 % 4 = 0 ∨ r 1 % 4 = 1 ∨ r 1 % 4 = 2 ∨ r 1 % 4 = 3 := by omega
  simp only [ha, Rand.next, Bool.not_true, Bool.false_eq_true, if_false, beq_iff_eq, h3,
    Nat.zero_add]
  rcases hd with hd | hd | hd | hd <;> rw [hd] <;> simp only [neighbour] <;>
    split_ifs <;> first | rfl | omega | simp_all

theorem neighbour_adjacent (dir : Nat) (x y : Int) :
    |(neighbour dir x y).1 - x| + |(neighbour dir x y).2 - y| = 1 := by
  unfold neighbour
  split <;> simp

/-- One call of `move`: the enemy stays, or lands on a walkable cell exactly one
step away along one axis. -/
theorem enemy_move_place (e : Enemy) (w : World) (r : Rand) :
    ((e.move w r).1.x = e.x ∧ (e.move w r).1.y = e.y) ∨
    (|(e.move w r).1.x - e.x| + |(e.move w r).1.y - e.y| = 1 ∧
      w.Walkable (e.move w r).1.x (e.move w r).1.y) := by
  unfold Enemy.move
  cases e.kind
  · exact Or.inl ⟨rfl, rfl⟩
  · dsimp only
    by_cases hi : e.active = false ∨ r 0 % 3 = 0
    · rw [movingEnemy_move_idle e w r hi]
      exact Or.inl ⟨rfl, rfl⟩
    · have ha : e.active = true := by
        cases hact : e.active
        · exact absurd (Or.inl hact) hi
        · rfl
      have h3 : r 0 % 3 ≠ 0 := fun h => hi (Or.inr h)
      rw [movingEnemy_move_eq e w r ha h3]
      split_ifs with hc
      · exact Or.inr ⟨neighbour_adjacent _ _ _, (canMoveTo_iff w _ _).mp hc⟩
      · exact Or.inl ⟨rfl, rfl⟩

theorem enemy_move_flags (e : Enemy) (w : World) (r : Rand) :
    (e.move w r).1.active = e.active ∧ (e.move w r).1.visible = e.visible := by
  unfold Enemy.move
  cases e.kind
  · exact ⟨rfl, rfl⟩
  · dsimp only
    unfold MovingEnemy.move
    dsimp only
    split_ifs <;> exact ⟨rfl, rfl⟩

theorem seen_iff (w : World) (p : Player) (e : Enemy) :
    (decide (|p.x - e.x| ≤ 3) && decide (|p.y - e.y| ≤ 3) && w.illuminated e.y e.x) = true
      ↔ w.Seen p e := by
  unfold World.Seen
  simp only [Bool.and_eq_true, decide_eq_true_eq]
  tauto

/-- The body of the loop of `updateEnemies`, enemy part, for an enemy the
proximity rule holds for. -/
theorem updateBody_seen (w : World) (e : Enemy) (p : Player) (r : Rand)
    (h : w.Seen p e) : (updateBody w e p r).1 = (e.makeVisible.activate.move w r).1 := by
  unfold World.updateBody
  dsimp only
  rw [if_pos ((seen_iff w p e).mpr h)]
  have : e.makeVisible.activate.active = true := rfl
  rw [if_pos this]

/-- The body of the loop of `updateEnemies`, enemy part, for an enemy the
proximity rule does not hold for. -/
theorem updateBody_unseen (w : World) (e : Enemy) (p : Player) (r : Rand)
    (h : ¬ w.Seen p e) :
    (updateBody w e p r).1 = if e.active = true then (e.move w r).1 else e := by
  unfold World.updateBody
  dsimp only
  rw [if_neg (fun hs => h ((seen_iff w p e).mp hs))]
  split_ifs <;> rfl

theorem updateBody_flags (w : World) (e : Enemy) (p : Player) (r : Rand) :
    ((updateBody w e p r).1.active = true ↔ (e.active = true ∨ w.Seen p e)) ∧
    ((updateBody w e p r).1.visible = true ↔ (e.visible = true ∨ w.Seen p e)) := by
  by_cases h : w.Seen p e
  · rw [updateBody_seen w e p r h]
    have hf := enemy_move_flags e.makeVisible.activate w r
    rw [hf.1, hf.2]
    exact ⟨⟨fun _ => Or.inr h, fun _ => rfl⟩, ⟨fun _ => Or.inr h, fun _ => rfl⟩⟩
  · rw [updateBody_unseen w e p r h]
    by_cases ha : e.active = true
    · rw [if_pos ha]
      have hf := enemy_move_flags e w r
      rw [hf.1, hf.2]
      exact ⟨⟨fun hh => Or.inl hh, fun _ => ha⟩,
        ⟨fun hh => Or.inl hh, fun hh => hh.elim id (fun hs => absurd hs h)⟩⟩
    · rw [if_neg ha]
      exact ⟨⟨fun hh => Or.inl hh, fun hh => hh.elim id (fun hs => absurd hs h)⟩,
        ⟨fun hh => Or.inl hh, fun hh => hh.elim id (fun hs => absurd hs h)⟩⟩

theorem updateBody_place (w : World) (e : Enemy) (p : Player) (r : Rand) :
    (((updateBody w e p r).1.x = e.x ∧ (updateBody w e p r).1.y = e.y) ∨
      (|(updateBody w e p r).1.x - e.x| + |(updateBody w e p r).1.y - e.y| = 1 ∧
        w.Walkable (updateBody w e p r).1.x (updateBody w e p r).1.y)) ∧
    (e.active = false → ¬ w.Seen p e →
      (updateBody w e p r).1.x = e.x ∧ (updateBody w e p r).1.y = e.y) := by
  by_cases h : w.Seen p e
  · rw [updateBody_seen w e p r h]
    exact ⟨enemy_move_place e.makeVisible.activate w r, fun _ hs => absurd h hs⟩
  · rw [updateBody_unseen w e p r h]
    by_cases ha : e.active = true
    · rw [if_pos ha]
      refine ⟨enemy_move_place e w r, ?_⟩
      intro hf
      rw [ha] at hf
      exact absurd hf (by decide)
    · rw [if_neg ha]
      exact ⟨Or.inl ⟨rfl, rfl⟩, fun _ _ => ⟨rfl, rfl⟩⟩

/-- A relation the body of the loop establishes for every enemy, whatever the
health of the player, holds place by place after the whole loop. -/
theorem updateLoop_forall₂ (w : World) (px py : Int) (R : Enemy → Enemy → Prop)
    (hbody : ∀ (e : Enemy) (p : Player) (r : Rand), p.x = px → p.y = py →
      R e (updateBody w e p r).1) (es : List Enemy) :
    ∀ (p : Player) (r : Rand), p.x = px → p.y = py →
      List.Forall₂ R es (updateLoop w es p r).1 := by
  induction es with
  | nil => intro p r _ _; simp [World.updateLoop]
  | cons e rest ih =>
    intro p r hx hy
    simp only [World.updateLoop]
    refine List.Forall₂.cons (hbody e p r hx hy) (ih _ _ ?_ ?_)
    · rcases updateBody_player w e p r with h | h
      · rw [h]; exact hx
      · rw [h]; exact hx
    · rcases updateBody_player w e p r with h | h
      · rw [h]; exact hy
      · rw [h]; exact hy

theorem seen_congr (w : World) (p q : Player) (e : Enemy) (hx : p.x = q.x) (hy : p.y = q.y) :
    w.Seen p e ↔ w.Seen q e := by
  unfold World.Seen
  rw [hx, hy]

theorem updateEnemies_activated (w : World) (r : Rand) :
    List.Forall₂ w.Activated w.enemies (w.updateEnemies r).1.enemies := by
  rw [updateEnemies_eq]
  apply updateLoop_forall₂ w w.player.x w.player.y w.Activated _ w.enemies w.player r rfl rfl
  intro e p r2 hx hy
  unfold World.Activated
  rw [← seen_congr w p w.player e hx hy]
  exact updateBody_flags w e p r2

theorem updateEnemies_stepped (w : World) (r : Rand) :
    List.Forall₂ w.Stepped w.enemies (w.updateEnemies r).1.enemies := by
  rw [updateEnemies_eq]
  apply updateLoop_forall₂ w w.player.x w.player.y w.Stepped _ w.enemies w.player r rfl rfl
  intro e p r2 hx hy
  unfold World.Stepped
  rw [← seen_congr w p w.player e hx hy]
  exact updateBody_place w e p r2

/-- C21: the proximity activation rule.  After one `updateEnemies` call, with
any random draws, an enemy is active exactly when it was active before the call
or, at the start of the call and on its position before its own step, it was
within 3 cells of the player on both axes and its tile was illuminated; and
likewise for visible.  The enemies are compared place by place in the list. -/
theorem proximity_activation_rule (w : World) (r : Rand) :
    List.Forall₂
      (fun e e2 =>
        (e2.active = true ↔
          (e.active = true ∨
            (|w.player.x - e.x| ≤ 3 ∧ |w.player.y - e.y| ≤ 3 ∧ w.illuminated e.y e.x = true))) ∧
        (e2.visible = true ↔
          (e.visible = true ∨
            (|w.player.x - e.x| ≤ 3 ∧ |w.player.y - e.y| ≤ 3 ∧ w.illuminated e.y e.x = true))))
      w.enemies (w.updateEnemies r).1.enemies :=
  updateEnemies_activated w r

/-- C23: the enemy step.  `StationaryEnemy::move` leaves the enemy as it is;
`MovingEnemy::move` leaves it as it is when it is not active or the first draw
is 0 modulo 3; otherwise it targets the neighbour the second draw selects
modulo 4 (0 up, 1 down, 2 left, 3 right) and moves there exactly when that cell
is in bounds and not a Wall.  Hence a step leaves the enemy on its cell or on a
walkable cell one step away along one axis, and during `updateEnemies` an enemy
that is inactive after the activation check keeps its position. -/
theorem enemy_step_spec :
    (∀ (e : Enemy) (w : World) (r : Rand), (StationaryEnemy.move e w r).1 = e) ∧
    (∀ (e : Enemy) (w : World) (r : Rand), (e.active = false ∨ r 0 % 3 = 0) →
      (MovingEnemy.move e w r).1.x = e.x ∧ (MovingEnemy.move e w r).1.y = e.y) ∧
    (∀ (e : Enemy) (w : World) (r : Rand), e.active = true → r 0 % 3 ≠ 0 →
      (w.Walkable (neighbour (r 1 % 4) e.x e.y).1 (neighbour (r 1 % 4) e.x e.y).2 →
        (MovingEnemy.move e w r).1.x = (neighbour (r 1 % 4) e.x e.y).1 ∧
        (MovingEnemy.move e w r).1.y = (neighbour (r 1 % 4) e.x e.y).2) ∧
      (¬ w.Walkable (neighbour (r 1 % 4) e.x e.y).1 (neighbour (r 1 % 4) e.x e.y).2 →
        (MovingEnemy.move e w r).1.x = e.x ∧ (MovingEnemy.move e w r).1.y = e.y)) ∧
    (∀ (e : Enemy) (w : World) (r : Rand),
      ((e.move w r).1.x = e.x ∧ (e.move w r).1.y = e.y) ∨
      (|(e.move w r).1.x - e.x| + |(e.move w r).1.y - e.y| = 1 ∧
        w.Walkable (e.move w r).1.x (e.move w r).1.y)) ∧
    (∀ (w : World) (r : Rand),
      List.Forall₂
        (fun e e2 => e.active = false → ¬ w.Seen w.player e → e2.x = e.x ∧ e2.y = e.y)
        w.enemies (w.updateEnemies r).1.enemies) := by
  refine ⟨fun e w r => rfl, ?_, ?_, enemy_move_place, ?_⟩
  · intro e w r h
    rw [movingEnemy_move_idle e w r h]
    exact ⟨rfl, rfl⟩
  · intro e w r ha h3
    rw [movingEnemy_move_eq e w r ha h3]
    constructor
    · intro hw
      rw [if_pos ((canMoveTo_iff w _ _).mpr hw)]
      exact ⟨rfl, rfl⟩
    · intro hw
      rw [if_neg (fun hc => hw ((canMoveTo_iff w _ _).mp hc))]
      exact ⟨rfl, rfl⟩
  · intro w r
    exact (updateEnemies_stepped w r).imp (fun e e2 h => h.2)

/-! ## Damage dealt during `updateEnemies` -/

theorem hitDamage_cons (px py : Int) (e : Enemy) (es : List Enemy) :
    hitDamage px py (e :: es) =
      (if (e.x == px && e.y == py) = true then e.damage else 0) + hitDamage px py es := by
  unfold hitDamage
  by_cases h : (e.x == px && e.y == py) = true
  · have hf : (e :: es).filter (fun e => e.x == px && e.y == py)
        = e :: es.filter (fun e => e.x == px && e.y == py) :=
      List.filter_cons_of_pos h
    rw [hf, if_pos h]
    simp
  · have hf : (e :: es).filter (fun e => e.x == px && e.y == py)
        = es.filter (fun e => e.x == px && e.y == py) :=
      List.filter_cons_of_neg h
    rw [hf, if_neg h]
    simp

theorem hitDamage_nonneg (px py : Int) (es : List Enemy) (h : ∀ e ∈ es, 0 ≤ e.damage) :
    0 ≤ hitDamage px py es := by
  unfold hitDamage
  apply List.sum_nonneg
  intro v hv
  obtain ⟨e, he, hd⟩ := List.mem_map.mp hv
  rw [← hd]
  exact h e (List.mem_of_mem_filter he)

theorem updateBody_player_eq (w : World) (e : Enemy) (p : Player) (r : Rand) :
    (updateBody w e p r).2.1 =
      if ((updateBody w e p r).1.x == p.x && (updateBody w e p r).1.y == p.y) = true then
        p.takeDamage (updateBody w e p r).1.damage
      else p := rfl

/-- The health after the loop of `updateEnemies`: the hits of the enemies that
end on the player's tile add up, clamped at 0. -/
theorem updateLoop_health (w : World) (es : List Enemy) :
    ∀ (p : Player) (r : Rand), 0 ≤ p.health → (∀ e ∈ es, 0 ≤ e.damage) →
      (updateLoop w es p r).2.1.health
        = max 0 (p.health - hitDamage p.x p.y (updateLoop w es p r).1) := by
  induction es with
  | nil =>
    intro p r hp _
    simp only [World.updateLoop, hitDamage, List.filter_nil, List.map_nil, List.sum_nil]
    omega
  | cons e rest ih =>
    intro p r hp hd
    have hde : 0 ≤ (updateBody w e p r).1.damage := by
      rw [updateBody_damage]
      exact hd e (List.mem_cons_self _ _)
    have hrest : ∀ a ∈ rest, 0 ≤ a.damage := fun a ha => hd a (List.mem_cons_of_mem _ ha)
    have hpe := updateBody_player_eq w e p r
    have hxy : (updateBody w e p r).2.1.x = p.x ∧ (updateBody w e p r).2.1.y = p.y := by
      rcases updateBody_player w e p r with h | h
      · rw [h]; exact ⟨rfl, rfl⟩
      · rw [h]; exact ⟨rfl, rfl⟩
    have hsum : 0 ≤ hitDamage p.x p.y
        (updateLoop w rest (updateBody w e p r).2.1 (updateBody w e p r).2.2).1 :=
      hitDamage_nonneg _ _ _
        (damage_nonneg_of_map (updateLoop_damage w rest _ _) hrest)
    simp only [World.updateLoop]
    rw [hitDamage_cons]
    by_cases hhit : ((updateBody w e p r).1.x == p.x && (updateBody w e p r).1.y == p.y) = true
    · rw [if_pos hhit] at hpe ⊢
      have hh : (updateBody w e p r).2.1.health
          = max (p.health - (updateBody w e p r).1.damage) 0 := by
        rw [hpe]
        exact Player.takeDamage_health p _
      have h2 := ih (updateBody w e p r).2.1 (updateBody w e p r).2.2 (by rw [hh]; omega) hrest
      rw [hxy.1, hxy.2] at h2
      rw [h2, hh]
      omega
    · rw [if_neg hhit] at hpe ⊢
      have h2 := ih (updateBody w e p r).2.1 (updateBody w e p r).2.2 (by rw [hpe]; exact hp)
        hrest
      rw [hxy.1, hxy.2] at h2
      rw [h2, hpe]
      omega

/-- C22: several enemies can hit the player in one `updateEnemies` call.  The
call leaves the player's position, oxygen and battery, the score, the
visibility grid and the collectibles unchanged; and, for a health `h ≥ 0` and
enemies without negative damage, the health afterwards is `max 0 (h - S)` where
`S` is the summed damage of the enemies that stand on the player's tile after
their own step. -/
theorem update_damage_sum :
    (∀ (w : World) (r : Rand),
      (w.updateEnemies r).1.player.x = w.player.x ∧
      (w.updateEnemies r).1.player.y = w.player.y ∧
      (w.updateEnemies r).1.player.oxygen = w.player.oxygen ∧
      (w.updateEnemies r).1.player.battery = w.player.battery ∧
      (w.updateEnemies r).1.score = w.score ∧
      (w.updateEnemies r).1.illuminated = w.illuminated ∧
      (w.updateEnemies r).1.collectibles = w.collectibles) ∧
    (∀ (w : World) (r : Rand), 0 ≤ w.player.health → (∀ e ∈ w.enemies, 0 ≤ e.damage) →
      (w.updateEnemies r).1.player.health
        = max 0 (w.player.health
            - hitDamage w.player.x w.player.y (w.updateEnemies r).1.enemies)) := by
  constructor
  · intro w r
    have h := updateLoop_player_frame w w.enemies w.player r
    rw [updateEnemies_eq]
    exact ⟨h.1, h.2.1, h.2.2.1, h.2.2.2.1, rfl, rfl, rfl⟩
  · intro w r hp hd
    rw [updateEnemies_eq]
    exact updateLoop_health w w.enemies w.player r hp hd

/-! ## Where enemies and player stand -/

theorem step_map (w : World) (op : Op) : (w.step op).map = w.map := by
  cases op with
  | requestMove fromX fromY toX toY isPlayer =>
    simp only [World.step]
    rcases requestMove_cases w fromX fromY toX toY isPlayer with ⟨b, h⟩ | h | ⟨e, _, h⟩ | h
    · rw [h]
    · rw [h]
    · rw [h]
    · rw [h]; rfl
  | illuminateTile x y =>
    simp only [World.step]
    rcases illuminateTile_cases w x y with h | h
    · rw [h]
    · rw [h]
  | updateEnemies r =>
    simp only [World.step, updateEnemies_eq]

theorem walkable_congr (w v : World) (h : v.map = w.map) (x y : Int) :
    v.Walkable x y ↔ w.Walkable x y := by
  unfold World.Walkable
  rw [h]

theorem step_enemies_walkable (w : World) (op : Op)
    (hw : ∀ e ∈ w.enemies, w.Walkable e.x e.y) :
    ∀ e ∈ (w.step op).enemies, (w.step op).Walkable e.x e.y := by
  intro e2 he2
  rw [walkable_congr w (w.step op) (step_map w op)]
  cases op with
  | requestMove fromX fromY toX toY isPlayer =>
    simp only [World.step] at he2
    have hen : (w.requestMove fromX fromY toX toY isPlayer).2.enemies = w.enemies := by
      rcases requestMove_cases w fromX fromY toX toY isPlayer with ⟨b, h⟩ | h | ⟨e, _, h⟩ | h
      · rw [h]
      · rw [h]
      · rw [h]
      · rw [h]; rfl
    rw [hen] at he2
    exact hw e2 he2
  | illuminateTile x y =>
    simp only [World.step] at he2
    rcases illuminateTile_cases w x y with h | h
    · rw [h] at he2
      exact hw e2 he2
    · rw [h] at he2
      obtain ⟨e, he, hr⟩ := forall₂_mem_right (illuminateEnemies_lit x y w.enemies) e2 he2
      rw [hr.1, hr.2.1]
      exact hw e he
  | updateEnemies r =>
    simp only [World.step] at he2
    obtain ⟨e, he, hr⟩ := forall₂_mem_right (updateEnemies_stepped w r) e2 he2
    rcases hr.1 with ⟨hx, hy⟩ | ⟨_, hwalk⟩
    · rw [hx, hy]
      exact hw e he
    · exact hwalk

theorem run_enemies_walkable (ops : List Op) :
    ∀ w : World, (∀ e ∈ w.enemies, w.Walkable e.x e.y) →
      ∀ e ∈ (w.run ops).enemies, (w.run ops).Walkable e.x e.y := by
  induction ops with
  | nil => intro w hw; exact hw
  | cons op rest ih =>
    intro w hw
    exact ih (w.step op) (step_enemies_walkable w op hw)

/-- A player move that returns true passed both checks: the target is walkable
and no enemy stands on it. -/
theorem requestMove_true_checks (w : World) (fromX fromY toX toY : Int)
    (h : (w.requestMove fromX fromY toX toY true).1 = true) :
    w.Walkable toX toY ∧ ∀ e ∈ w.enemies, ¬ (e.x = toX ∧ e.y = toY) := by
  unfold World.requestMove at h
  cases hc : w.canMoveTo toX toY
  · simp [hc] at h
  · refine ⟨(canMoveTo_iff w toX toY).mp hc, ?_⟩
    cases hf : w.enemies.find? (fun enemy => enemy.x == toX && enemy.y == toY) with
    | none =>
      intro e he
      have := List.find?_eq_none.mp hf e he
      simpa using this
    | some e => simp [hc, hf] at h

/-- Every enemy `createDefaultMap` places stands, inactive and invisible, on an
open cell of the obstacle square other than (5,5). -/
theorem createDefaultMap_enemies (garbage : Int → Int → Char) (r : Rand) :
    ∀ e ∈ ((freshWorld garbage).createDefaultMap r).1.enemies,
      InObstacleSquare e.x e.y ∧
      ((freshWorld garbage).createDefaultMap r).1.map e.y e.x = 'o' ∧
      ¬ (e.x = 5 ∧ e.y = 5) ∧ e.active = false ∧ e.visible = false := by
  simp only [World.createDefaultMap]
  apply enemyLoop_forall _
    (fun e => InObstacleSquare e.x e.y ∧ _ ∧ ¬ (e.x = 5 ∧ e.y = 5) ∧ e.active = false ∧
      e.visible = false)
  · intro x y hsq ho h5
    exact ⟨⟨hsq, ho, h5, rfl, rfl⟩, ⟨hsq, ho, h5, rfl, rfl⟩⟩
  · intro e he
    cases he

theorem inBounds_of_square (x y : Int) (h : InObstacleSquare x y) : InBounds x y := by
  unfold InObstacleSquare at h
  unfold InBounds
  omega

/-- C26: the position invariant.  If every enemy stands on an in-bounds cell
that is not a Wall, as holds after `createDefaultMap`, then after any finite
sequence of `requestMove`, `illuminateTile` and `updateEnemies` calls, with any
random draws, every enemy still does, so the index of `illuminated[ey][ex]` in
`updateEnemies` is inside the array; and after a successful player
`requestMove` the player stands on an in-bounds cell that is not a Wall and on
which no enemy stood at the time of the move. -/
theorem position_invariant :
    (∀ (w : World) (ops : List Op),
      (∀ e ∈ w.enemies, InBounds e.x e.y ∧ w.map e.y e.x ≠ 'x') →
      ∀ e ∈ (w.run ops).enemies, InBounds e.x e.y ∧ (w.run ops).map e.y e.x ≠ 'x') ∧
    (∀ (garbage : Int → Int → Char) (r : Rand),
      ∀ e ∈ ((freshWorld garbage).createDefaultMap r).1.enemies,
        InBounds e.x e.y ∧ ((freshWorld garbage).createDefaultMap r).1.map e.y e.x ≠ 'x') ∧
    (∀ (w : World) (fromX fromY toX toY : Int),
      (w.requestMove fromX fromY toX toY true).1 = true →
      InBounds (w.requestMove fromX fromY toX toY true).2.player.x
        (w.requestMove fromX fromY toX toY true).2.player.y ∧
      (w.requestMove fromX fromY toX toY true).2.map
        (w.requestMove fromX fromY toX toY true).2.player.y
        (w.requestMove fromX fromY toX toY true).2.player.x ≠ 'x' ∧
      ∀ e ∈ w.enemies,
        ¬ (e.x = (w.requestMove fromX fromY toX toY true).2.player.x ∧
          e.y = (w.requestMove fromX fromY toX toY true).2.player.y)) := by
  refine ⟨fun w ops hw => run_enemies_walkable ops w hw, ?_, ?_⟩
  · intro garbage r e he
    have h := createDefaultMap_enemies garbage r e he
    refine ⟨inBounds_of_square _ _ h.1, ?_⟩
    rw [h.2.1]
    decide
  · intro w fromX fromY toX toY hmove
    have hchk := requestMove_true_checks w fromX fromY toX toY hmove
    rw [requestMove_true w fromX fromY toX toY hmove]
    have hfr := collectLoop_frame toX toY w.collectibles
      ((w.player.setPosition toX toY).consumeOxygen 2) w.score
    have hx : (w.moved toX toY).player.x = toX := hfr.1
    have hy : (w.moved toX toY).player.y = toY := hfr.2.1
    dsimp only
    rw [hx, hy]
    exact ⟨hchk.1.1, hchk.1.2, hchk.2⟩

theorem position_invariant_witness :
    (∀ e ∈ guardedWorld.enemies, InBounds e.x e.y ∧ guardedWorld.map e.y e.x ≠ 'x') ∧
      (∀ e ∈ (guardedWorld.run sampleOps).enemies,
        InBounds e.x e.y ∧ (guardedWorld.run sampleOps).map e.y e.x ≠ 'x') :=
  ⟨by decide, position_invariant.1 guardedWorld sampleOps (by decide)⟩

/-! ## The generated map -/

/-- The cells the obstacle loop turns into Walls are among `n` cells. -/
theorem obstacleLoop_cells (n : Nat) :
    ∀ (m : Int → Int → Char) (r : Rand), ∃ obs : List (Int × Int), obs.length = n ∧
      ∀ y x : Int, (obstacleLoop n m r).1 y x = 'x' → (m y x = 'x' ∨ (x, y) ∈ obs) := by
  induction n with
  | zero =>
    intro m r
    exact ⟨[], rfl, fun y x h => Or.inl h⟩
  | succ n ih =>
    intro m r
    simp only [World.obstacleLoop]
    obtain ⟨obs, hlen, hobs⟩ := ih
      (setCell m (2 + (r.next.2.next.1 : Int) % (MAP_HEIGHT - 4))
        (2 + (r.next.1 : Int) % (MAP_WIDTH - 4)) 'x') r.next.2.next.2
    refine ⟨(2 + (r.next.1 : Int) % (MAP_WIDTH - 4),
      2 + (r.next.2.next.1 : Int) % (MAP_HEIGHT - 4)) :: obs, by simp [hlen], ?_⟩
    intro y x h
    rcases hobs y x h with h1 | h1
    · unfold setCell at h1
      by_cases hc : y = 2 + (r.next.2.next.1 : Int) % (MAP_HEIGHT - 4) ∧
          x = 2 + (r.next.1 : Int) % (MAP_WIDTH - 4)
      · right
        rw [hc.1, hc.2]
        exact List.mem_cons_self _ _
      · rw [if_neg hc] at h1
        exact Or.inl h1
    · exact Or.inr (List.mem_cons_of_mem _ h1)

/-- The obstacle loop only ever writes Walls. -/
theorem obstacleLoop_wall_or_base (n : Nat) (y x : Int) :
    ∀ (m : Int → Int → Char) (r : Rand),
      (obstacleLoop n m r).1 y x = 'x' ∨ (obstacleLoop n m r).1 y x = m y x := by
  induction n with
  | zero => intro m r; exact Or.inr rfl
  | succ n ih =>
    intro m r
    simp only [World.obstacleLoop]
    rcases ih (setCell m (2 + (r.next.2.next.1 : Int) % (MAP_HEIGHT - 4))
        (2 + (r.next.1 : Int) % (MAP_WIDTH - 4)) 'x') r.next.2.next.2 with h | h
    · exact Or.inl h
    · rw [h]
      unfold setCell
      split_ifs
      · exact Or.inl rfl
      · exact Or.inr rfl

theorem generated_map (garbage : Int → Int → Char) (r : Rand) :
    (generated garbage r).map =
      (obstacleLoop 25
        (fillGrid
          (fun y x => if y = 0 ∨ y = MAP_HEIGHT - 1 ∨ x = 0 ∨ x = MAP_WIDTH - 1 then 'x' else 'o')
          garbage) r).1 := rfl

/-- The terrain before the obstacles, on a cell of the grid. -/
theorem base_fill (garbage : Int → Int → Char) (x y : Int) (hb : InBounds x y) :
    fillGrid
      (fun y x => if y = 0 ∨ y = MAP_HEIGHT - 1 ∨ x = 0 ∨ x = MAP_WIDTH - 1 then 'x' else 'o')
      garbage y x = if OnBorder x y then 'x' else 'o' := by
  rw [fillGrid_apply, if_pos hb]
  unfold OnBorder
  simp only [MAP_HEIGHT, MAP_WIDTH]
  by_cases h : x = 0 ∨ x = 19 ∨ y = 0 ∨ y = 19
  · rw [if_pos h, if_pos]
    omega
  · rw [if_neg h, if_neg]
    omega

theorem generated_border (garbage : Int → Int → Char) (r : Rand) (x y : Int)
    (hb : InBounds x y) (hbor : OnBorder x y) : (generated garbage r).map y x = 'x' := by
  have hout : ¬ InObstacleSquare x y := by
    unfold InObstacleSquare
    unfold OnBorder at hbor
    omega
  rw [generated_map, obstacleLoop_outside 25 y x hout, base_fill garbage x y hb, if_pos hbor]

theorem generated_wall_or_open (garbage : Int → Int → Char) (r : Rand) (x y : Int)
    (hb : InBounds x y) :
    (generated garbage r).map y x = 'x' ∨ (generated garbage r).map y x = 'o' := by
  rw [generated_map]
  rcases obstacleLoop_wall_or_base 25 y x
    (fillGrid
      (fun y x => if y = 0 ∨ y = MAP_HEIGHT - 1 ∨ x = 0 ∨ x = MAP_WIDTH - 1 then 'x' else 'o')
      garbage) r with h | h
  · exact Or.inl h
  · rw [h, base_fill garbage x y hb]
    split_ifs
    · exact Or.inl rfl
    · exact Or.inr rfl

theorem generated_interior_wall (garbage : Int → Int → Char) (r : Rand) (x y : Int)
    (hb : InBounds x y) (hint : ¬ OnBorder x y) (hwall : (generated garbage r).map y x = 'x') :
    InObstacleSquare x y := by
  by_contra hout
  rw [generated_map, obstacleLoop_outside 25 y x hout, base_fill garbage x y hb,
    if_neg hint] at hwall
  exact absurd hwall (by decide)

theorem generated_interior_count (garbage : Int → Int → Char) (r : Rand) :
    (interiorWalls (generated garbage r).map).card ≤ 25 := by
  obtain ⟨obs, hlen, hobs⟩ := obstacleLoop_cells 25
    (fillGrid
      (fun y x => if y = 0 ∨ y = MAP_HEIGHT - 1 ∨ x = 0 ∨ x = MAP_WIDTH - 1 then 'x' else 'o')
      garbage) r
  have hsub : interiorWalls (generated garbage r).map ⊆ obs.toFinset := by
    intro c hc
    unfold interiorWalls at hc
    rw [Finset.mem_filter, Finset.mem_product, Finset.mem_Icc, Finset.mem_Icc] at hc
    obtain ⟨⟨⟨h1, h2⟩, ⟨h3, h4⟩⟩, hwall⟩ := hc
    rw [generated_map] at hwall
    rw [List.mem_toFinset]
    rcases hobs c.2 c.1 hwall with h | h
    · have hb : InBounds c.1 c.2 := by
        unfold InBounds
        omega
      have hint : ¬ OnBorder c.1 c.2 := by
        unfold OnBorder
        omega
      rw [base_fill garbage c.1 c.2 hb, if_neg hint] at h
      exact absurd h (by decide)
    · exact h
  calc (interiorWalls (generated garbage r).map).card
      ≤ obs.toFinset.card := Finset.card_le_card hsub
    _ ≤ obs.length := List.toFinset_card_le obs
    _ = 25 := hlen

theorem generated_collectibles (garbage : Int → Int → Char) (r : Rand) :
    ∀ c ∈ (generated garbage r).collectibles,
      InBounds c.x c.y ∧ (generated garbage r).map c.y c.x = 'o' ∧ c.collected = false := by
  simp only [generated, World.createDefaultMap]
  apply spawnCollectibles_forall _ (fun c => InBounds c.x c.y ∧ _ ∧ c.collected = false)
  · intro x y type h1 h2 h3 h4 ho
    refine ⟨?_, ho, rfl⟩
    unfold InBounds
    dsimp only
    omega
  · intro c hc
    cases hc

/-- C24: the generated map.  After `createDefaultMap` on a fresh world, for any
random draws: every border cell is a Wall; every Wall off the border lies in
the square `2 ≤ x, y ≤ 17` and there are at most 25 of them; every cell of the
grid that is not a Wall is Open; the player is at (5,5), the only illuminated
cell; every enemy stands on an in-bounds Open cell other than (5,5), inactive
and invisible; every collectible lies on an in-bounds Open cell, uncollected. -/
theorem generated_map_invariants (garbage : Int → Int → Char) (r : Rand) :
    (∀ x y : Int, InBounds x y → OnBorder x y → (generated garbage r).map y x = 'x') ∧
    (∀ x y : Int, InBounds x y → ¬ OnBorder x y → (generated garbage r).map y x = 'x' →
      InObstacleSquare x y) ∧
    (interiorWalls (generated garbage r).map).card ≤ 25 ∧
    (∀ x y : Int, InBounds x y → (generated garbage r).map y x ≠ 'x' →
      (generated garbage r).map y x = 'o') ∧
    ((generated garbage r).player.x = 5 ∧ (generated garbage r).player.y = 5) ∧
    (∀ x y : Int, (generated garbage r).illuminated y x = true ↔ (x = 5 ∧ y = 5)) ∧
    (∀ e ∈ (generated garbage r).enemies,
      InBounds e.x e.y ∧ (generated garbage r).map e.y e.x = 'o' ∧ ¬ (e.x = 5 ∧ e.y = 5) ∧
      e.active = false ∧ e.visible = false) ∧
    (∀ c ∈ (generated garbage r).collectibles,
      InBounds c.x c.y ∧ (generated garbage r).map c.y c.x = 'o' ∧ c.collected = false) := by
  refine ⟨generated_border garbage r, generated_interior_wall garbage r,
    generated_interior_count garbage r, ?_, ⟨rfl, rfl⟩, ?_, ?_, generated_collectibles garbage r⟩
  · intro x y hb hne
    rcases generated_wall_or_open garbage r x y hb with h | h
    · exact absurd h hne
    · exact h
  · intro x y
    show setCell (fun _ _ => false) 5 5 true y x = true ↔ (x = 5 ∧ y = 5)
    unfold setCell
    by_cases h : y = 5 ∧ x = 5
    · rw [if_pos h]
      exact ⟨fun _ => ⟨h.2, h.1⟩, fun _ => rfl⟩
    · rw [if_neg h]
      exact ⟨fun hf => absurd hf Bool.false_ne_true, fun hxy => absurd ⟨hxy.2, hxy.1⟩ h⟩
  · intro e he
    have h := createDefaultMap_enemies garbage r e he
    exact ⟨inBounds_of_square _ _ h.1, h.2.1, h.2.2.1, h.2.2.2.1, h.2.2.2.2⟩

theorem generated_map_invariants_witness :
    InBounds 0 7 ∧ OnBorder 0 7 ∧ (generated (fun _ _ => ' ') (fun _ => 0)).map 7 0 = 'x' :=
  ⟨by decide, by decide,
    (generated_map_invariants (fun _ _ => ' ') (fun _ => 0)).1 0 7 (by decide) (by decide)⟩

/-! ## The render snapshot of `holy_diver_copy.cpp` -/

/-- What `getTileContent` of the copy tests: it returns the dark symbol
whenever `visibility[x][y]`, the entry with the two indices in the order
opposite to the one `illuminateTile` writes, is false. -/
theorem getTileContent_dark (w : Copy.World) (x y : Int) (h : w.visibility x y = false) :
    w.getTileContent x y = '?' := by
  unfold Copy.World.getTileContent
  rw [h]
  rfl

set_option maxRecDepth 100000 in
/-- C25 fails on the code: in a new world of the copy, after
`illuminateTile(3, 5)` the cell is revealed (`visibility[5][3]` is true, the
entry `illuminateTile` writes), yet `getTileContent(3, 5)` still returns the
dark symbol, because it reads `visibility[3][5]`; and `getTileContent(5, 3)`,
for a cell never illuminated, returns terrain. -/
theorem getTileContent_transposed :
    (Copy.darkWorld.illuminateTile 3 5).visibility 5 3 = true ∧
      (Copy.darkWorld.illuminateTile 3 5).visibility 3 5 = false ∧
      (Copy.darkWorld.illuminateTile 3 5).getTileContent 3 5 = '?' ∧
      (Copy.darkWorld.illuminateTile 3 5).getTileContent 5 3 = 'o' := by
  decide

/-! ## Instances for the enemy update -/

theorem update_damage_sum_witness :
    (0 : Int) ≤ swarmedWorld.player.health ∧ (∀ e ∈ swarmedWorld.enemies, 0 ≤ e.damage) ∧
      swarmedWorld.player.health = 100 ∧
      ((swarmedWorld.updateEnemies stepLeftDraws).1.enemies.filter
        (fun e => e.x == swarmedWorld.player.x && e.y == swarmedWorld.player.y)).length = 2 ∧
      hitDamage swarmedWorld.player.x swarmedWorld.player.y
        (swarmedWorld.updateEnemies stepLeftDraws).1.enemies = 35 ∧
      (swarmedWorld.updateEnemies stepLeftDraws).1.player.health
        = max 0 (swarmedWorld.player.health
            - hitDamage swarmedWorld.player.x swarmedWorld.player.y
                (swarmedWorld.updateEnemies stepLeftDraws).1.enemies) ∧
      (swarmedWorld.updateEnemies stepLeftDraws).1.player.health = 65 ∧
      faintWorld.player.health = 30 ∧
      hitDamage faintWorld.player.x faintWorld.player.y
        (faintWorld.updateEnemies stepLeftDraws).1.enemies = 35 ∧
      (faintWorld.updateEnemies stepLeftDraws).1.player.health = 0 :=
  ⟨by decide, by decide, by decide, by decide, by decide,
    update_damage_sum.2 swarmedWorld stepLeftDraws (by decide) (by decide),
    (update_damage_sum.2 swarmedWorld stepLeftDraws (by decide) (by decide)).trans
      (by decide),
    by decide, by decide,
    (update_damage_sum.2 faintWorld stepLeftDraws (by decide) (by decide)).trans
      (by decide)⟩

theorem enemy_step_spec_witness :
    stalker.active = true ∧ stepLeftDraws 0 % 3 ≠ 0 ∧
      neighbour (stepLeftDraws 1 % 4) stalker.x stalker.y = (5, 5) ∧
      stalkedWorld.Walkable (neighbour (stepLeftDraws 1 % 4) stalker.x stalker.y).1
        (neighbour (stepLeftDraws 1 % 4) stalker.x stalker.y).2 ∧
      (MovingEnemy.move stalker stalkedWorld stepLeftDraws).1.x
        = (neighbour (stepLeftDraws 1 % 4) stalker.x stalker.y).1 ∧
      (MovingEnemy.move stalker stalkedWorld stepLeftDraws).1.y
        = (neighbour (stepLeftDraws 1 % 4) stalker.x stalker.y).2 :=
  ⟨by decide, by decide, by decide, by decide,
    (enemy_step_spec.2.2.1 stalker stalkedWorld stepLeftDraws (by decide) (by decide)).1
      (by decide)⟩

end HolyDiver
